import Mathlib

/-!
Verification of the connector core of `yapic_io` (files
`yapic_io/tiff_connector.py`, `yapic_io/cellvoy_connector.py`).

The connector state and its pure operations are embedded shallowly:

* a `FilePair` is the named tuple `FilePair(img, lbl)`;
* a decoded 4-d label image (numpy array of shape `(C, Z, X, Y)`) is a
  `LabelMat`: explicit dimensions plus an index function;
* the filesystem / image-importer world visible to a connector is an `Env`
  mapping a file path to its dimensions (`get_tiff_image_dimensions`) and to
  its decoded label matrix (`import_tiff_image`);
* fallible Python code (constructor `ValueError`s) returns `Except`.

Helper functions of the repository that live in `yapic_io/utils.py` and
`yapic_io/image_importers.py` (not part of the given sources) are modelled
from the spec; each such definition carries a doc comment starting with
`Modelled from the spec:`.
-/

namespace Yapic

/-- The named tuple `FilePair = collections.namedtuple('FilePair', ['img', 'lbl'])`.
In the caller-supplied-list branch of `TiffConnector.__init__` a label entry
may be `None`; the image entry is a filename. -/
structure FilePair where
  img : String
  lbl : Option String
deriving DecidableEq, Repr, Inhabited

/-- A decoded 4-dimensional label image with axis order `(channel, z, x, y)`,
as returned by `ip.import_tiff_image`: explicit extents and an entry
function. Entries are raw (on-disk) label values, `0` meaning unlabeled. -/
structure LabelMat where
  C : Nat
  Z : Nat
  X : Nat
  Y : Nat
  val : Nat → Nat → Nat → Nat → Nat

/-- `os.path.join` for the paths appearing in the connector (a directory
joined with a plain basename). -/
def joinPath (dir fname : String) : String := dir ++ "/" ++ fname

/-- The set of values occurring in channel `c` of a label matrix:
`np.unique(mat[ch])` as a finite set. -/
def channelValues (m : LabelMat) (c : Nat) : Finset Nat :=
  ((Finset.range m.Z) ×ˢ (Finset.range m.X) ×ˢ (Finset.range m.Y)).image
    (fun p => m.val c p.1 p.2.1 p.2.2)

/-- `TiffConnector.unique_labels_per_channel`: per channel, the set of
occurring values with `0` removed (`set(labels) - {0}`). -/
def unique_labels_per_channel (m : LabelMat) : List (Finset Nat) :=
  (List.range m.C).map (fun c => channelValues m c \ {0})

/-- The per-channel dictionaries built by `map_label_values`: the counter
`itertools.count(1)` is threaded through the channels as `k`; channel keys
are the given (already sorted) value lists, and each key takes the next
counter value. A Python dict with its insertion order is an association
list. -/
def mapChannelsFrom : Nat → List (List Nat) → List (List (Nat × Nat))
  | _, [] => []
  | k, ls :: rest =>
    (ls.enum.map (fun p => (p.2, k + p.1))) :: mapChannelsFrom (k + ls.length) rest

/-- `TiffConnector.map_label_values(original_labels)`: sorts each channel's
raw-value set and assigns ascending ids starting at 1 from a single counter
shared across channels. -/
def map_label_values (original_labels : List (Finset Nat)) : List (List (Nat × Nat)) :=
  mapChannelsFrom 1 (original_labels.map (fun s => s.sort (· ≤ ·)))

/-- First id handed to channel `i`: 1 plus the number of raw values consumed
by the earlier channels. -/
def idStart (sets : List (Finset Nat)) (i : Nat) : Nat :=
  1 + (((sets.take i).map Finset.card).sum)

/-- The construction-time `ValueError`s raised by
`TiffConnector.check_label_matrix_dimensions`, carrying exactly the data
interpolated into the Python messages: the channel-inconsistency message
carries the two conflicting channel counts, the shape-mismatch message
carries the two spatial shapes, the image index and a path. -/
inductive TiffError where
  | channelMismatch (found alsoFound : Nat)
  | shapeMismatch (imgDim lblDim : List Nat) (idx : Nat) (path : String)
deriving DecidableEq, Repr

/-- The world a connector reads through `yapic_io.image_importers`:
`imgDims path` models `ip.get_tiff_image_dimensions(path)` (a
`(channels, z, x, y)` tuple as a list) and `lblMat path` models
`ip.import_tiff_image(path)` for label images. The dimensions reported for
a label file are those of its decoded matrix (importer coherence). -/
structure Env where
  imgDims : String → List Nat
  lblMat : String → LabelMat

/-- The state of a constructed `TiffConnector`. -/
structure TiffConn where
  img_path : String
  label_path : String
  savepath : Option String
  filenames : List FilePair
  labelvalue_mapping : List (List (Nat × Nat))
deriving DecidableEq, Repr

/-- `TiffConnector.label_matrix_dimensions` applied to a label path:
the `(channels, z, x, y)` of the decoded label matrix. -/
def lblDims (env : Env) (path : String) : List Nat :=
  [(env.lblMat path).C, (env.lblMat path).Z, (env.lblMat path).X, (env.lblMat path).Y]

/-- The loop body of `TiffConnector.check_label_matrix_dimensions`:
`nch` is the running `N_channels` (`None` before the first labeled image),
`i` the index of the head pair. Pairs without a label are skipped
(`continue`). For a labeled pair the channel count is checked against
`N_channels` first, then the spatial (z, x, y) dimensions against the
image's; the offending data is interpolated into the raised error. -/
def checkFrom (env : Env) (img_path label_path : String) :
    Option Nat → Nat → List FilePair → Except TiffError Unit
  | _, _, [] => .ok ()
  | nch, i, fp :: rest =>
    match fp.lbl with
    | none => checkFrom env img_path label_path nch (i+1) rest
    | some lf =>
      let img_dim := (env.imgDims (joinPath img_path fp.img)).tail
      let ld := lblDims env (joinPath label_path lf)
      let ch := ld.headD 0
      let lbl_dim := ld.tail
      let nch0 := nch.getD ch
      if nch0 ≠ ch then .error (.channelMismatch nch0 ch)
      else if lbl_dim ≠ img_dim then
        .error (.shapeMismatch img_dim lbl_dim i (joinPath img_path lf))
      else checkFrom env img_path label_path (some nch0) (i+1) rest

def check_label_matrix_dimensions (env : Env) (img_path label_path : String)
    (filenames : List FilePair) : Except TiffError Unit :=
  checkFrom env img_path label_path none 0 filenames

/-- `[l1.union(l2) for l1, l2 in zip(labels_per_channel, labels_per_im)]`. -/
def unionChannels (l1 l2 : List (Finset Nat)) : List (Finset Nat) :=
  (l1.zip l2).map (fun p => p.1 ∪ p.2)

/-- The loop of `TiffConnector.original_label_values_for_all_images`:
images without a label are skipped, the first labeled image seeds the
accumulator, later ones are unioned channelwise. -/
def collectLabels (env : Env) (label_path : String) :
    List (Finset Nat) → List FilePair → List (Finset Nat)
  | acc, [] => acc
  | acc, fp :: rest =>
    match fp.lbl with
    | none => collectLabels env label_path acc rest
    | some lf =>
      let per_im := unique_labels_per_channel (env.lblMat (joinPath label_path lf))
      if acc.length = 0 then collectLabels env label_path per_im rest
      else collectLabels env label_path (unionChannels acc per_im) rest

def original_label_values_for_all_images (env : Env) (label_path : String)
    (filenames : List FilePair) : List (Finset Nat) :=
  collectLabels env label_path [] filenames

/-- The caller-supplied-filename-list branch of `TiffConnector.__init__`,
with paths already split into a directory and basenames (the Python code
re-derives `img_path` / `label_path` from the first entries and keeps only
basenames). `zip(img_filenames, lbl_filenames)` truncates to the shorter
list. The count-mismatch `logger.warning` has no semantic effect and is
not modelled; construction continues after it. A raised check error means
no connector instance is produced. -/
def mkTiffConnector (env : Env) (img_path label_path : String) (savepath : Option String)
    (img_filenames : List String) (lbl_filenames : List (Option String)) :
    Except TiffError TiffConn :=
  let filenames := (img_filenames.zip lbl_filenames).map (fun p => FilePair.mk p.1 p.2)
  match check_label_matrix_dimensions env img_path label_path filenames with
  | .error e => .error e
  | .ok _ =>
    .ok { img_path := img_path, label_path := label_path, savepath := savepath,
          filenames := filenames,
          labelvalue_mapping :=
            map_label_values (original_label_values_for_all_images env label_path filenames) }

/-- `TiffConnector.filter_labeled`: a fresh connector over only the pairs
that have a label (the Python code joins the kept basenames with the
parent's directories and the constructor splits them off again). Note the
label-value mapping is recomputed by the constructor, not copied. -/
def filter_labeled (env : Env) (c : TiffConn) : Except TiffError TiffConn :=
  mkTiffConnector env c.img_path c.label_path c.savepath
    ((c.filenames.filter (fun fp => fp.lbl.isSome)).map FilePair.img)
    ((c.filenames.filter (fun fp => fp.lbl.isSome)).map FilePair.lbl)

/-- `itertools.compress`. -/
def compress {α : Type} : List α → List Bool → List α
  | [], _ => []
  | _ :: _, [] => []
  | a :: l, b :: m => if b then a :: compress l m else compress l m

/-- `TiffConnector.split`: the global numpy RNG is modelled as a state of
abstract type `R` threaded explicitly. `seedState` models `np.random.seed`,
and `choice s fraction n` models drawing
`np.random.choice([True, False], size=n, p=[1-fraction, fraction])` in
state `s`. The code saves the ambient state, seeds, draws the mask,
restores the saved state, pushes both halves through the constructor and
then overwrites both children's `labelvalue_mapping` with the parent's
(issue #1 in the source). The empty-partition warnings have no semantic
effect and are not modelled. -/
def split {R : Type} (seedState : Nat → R) (choice : R → Rat → Nat → List Bool × R)
    (env : Env) (c : TiffConn) (fraction : Rat) (random_seed : Nat) (ambient : R) :
    Except TiffError ((TiffConn × TiffConn) × R) :=
  let state := ambient
  let mask := (choice (seedState random_seed) fraction c.filenames.length).1
  let f1 := compress c.filenames mask
  let f2 := compress c.filenames (mask.map not)
  match mkTiffConnector env c.img_path c.label_path c.savepath
      (f1.map FilePair.img) (f1.map FilePair.lbl) with
  | .error e => .error e
  | .ok conn1 =>
    match mkTiffConnector env c.img_path c.label_path c.savepath
        (f2.map FilePair.img) (f2.map FilePair.lbl) with
    | .error e => .error e
    | .ok conn2 =>
      .ok (({ conn1 with labelvalue_mapping := c.labelvalue_mapping },
            { conn2 with labelvalue_mapping := c.labelvalue_mapping }), state)

/-- `TiffConnector.label_matrix_dimensions(image_nr)`: `None` without a
label file. -/
def label_matrix_dimensions (env : Env) (c : TiffConn) (image_nr : Nat) :
    Option (List Nat) :=
  match (c.filenames.getD image_nr default).lbl with
  | none => none
  | some lf => some (lblDims env (joinPath c.label_path lf))

/-- Dictionary lookup with numpy-mask semantics for the translation:
`find?` over the association list, anything without a key (in particular 0)
becoming 0. -/
def assocGetD (d : List (Nat × Nat)) (k : Nat) : Nat :=
  ((d.find? (fun p => p.1 == k)).map Prod.snd).getD 0

/-- Modelled from the spec: `yapic_io.utils.assign_slice_by_slice` is not in
src/. Per the spec, after translation through the LabelValueMapping the
label-matrix "entries are either 0 or a mapped label id": each channel's
entries are translated through that channel's dictionary. -/
def assign_slice_by_slice (mapping : List (List (Nat × Nat))) (m : LabelMat) : LabelMat :=
  { m with val := fun ch z x y => assocGetD (mapping.getD ch []) (m.val ch z x y) }

/-- `TiffConnector.load_label_matrix(image_nr, original_labelvalues)`:
`None` without a label file, the raw matrix when `original_labelvalues`,
otherwise the matrix translated through `labelvalue_mapping`. -/
def load_label_matrix (env : Env) (c : TiffConn) (image_nr : Nat)
    (original_labelvalues : Bool) : Option LabelMat :=
  match (c.filenames.getD image_nr default).lbl with
  | none => none
  | some lf =>
    let label_image := env.lblMat (joinPath c.label_path lf)
    if original_labelvalues then some label_image
    else some (assign_slice_by_slice c.labelvalue_mapping label_image)

/-- Modelled from the spec: `yapic_io.utils.get_tile_meshgrid` is not in
src/. Per the spec it selects, per spatial axis, the half-open interval
starting at the position, so extraction through it shifts indices by
`pos`; the extracted tile is meaningful for indices below the requested
size (bounds are the caller's duty). -/
def tile3d {α : Type} (f : Nat → Nat → Nat → α) (pos : Nat × Nat × Nat) :
    Nat → Nat → Nat → α :=
  fun z x y => f (pos.1 + z) (pos.2.1 + x) (pos.2.2 + y)

/-- `TiffConnector.label_tile(image_nr, pos_zxy, size_zxy, label_value)`:
the mapped label matrix is compared against `label_value`, the boolean
result reduced over the channel axis with `.any(axis=0)`, and the meshgrid
extraction applied. `None` without a label file (where the Python code
would fail on `None == label_value`). -/
def label_tile (env : Env) (c : TiffConn) (image_nr : Nat)
    (pos_zxy size_zxy : Nat × Nat × Nat) (label_value : Nat) :
    Option (Nat → Nat → Nat → Bool) :=
  (load_label_matrix env c image_nr false).map (fun m =>
    tile3d (fun z x y => decide (∃ ch, ch < m.C ∧ m.val ch z x y = label_value)) pos_zxy)

inductive PyError where
  | typeError (msg : String)
deriving DecidableEq, Repr

/-- `TiffConnector.get_label_tile(image_nr, pos, size)` as written executes
`labelmat = self.load_label_matrix(self, image_nr)`. Through Python's
method binding the wrapped function receives `(self, self, image_nr)`, so
its `image_nr` parameter is bound to the connector object itself (and
`original_labelvalues` to the integer); `self.filenames[image_nr]` inside
`load_label_matrix` then raises `TypeError` on every call, whatever the
arguments, before any tile is produced. -/
def get_label_tile (env : Env) (c : TiffConn) (image_nr : Nat)
    (pos size : Nat × Nat × Nat) : Except PyError (Nat → Nat → Nat → Nat) :=
  .error (.typeError "list indices must be integers or slices, not TiffConnector")

/-- `TiffConnector.is_labelvalue_valid`: membership in the mapped id space
(the flattened `d.values()` of `labelvalue_mapping`). -/
def is_labelvalue_valid (c : TiffConn) (label_value : Nat) : Bool :=
  decide (label_value ∈ (c.labelvalue_mapping.map (fun d => d.map Prod.snd)).flatten)

/-- Number of `True` entries of a boolean tile over the extents `Z, X, Y`. -/
def countTrue (f : Nat → Nat → Nat → Bool) (Z X Y : Nat) : Nat :=
  ∑ z ∈ Finset.range Z, ∑ x ∈ Finset.range X, ∑ y ∈ Finset.range Y,
    (if f z x y then 1 else 0)

/-- `np.count_nonzero(mat == l)` over the whole 4-d matrix. -/
def count4d (m : LabelMat) (v : Nat) : Nat :=
  ∑ ch ∈ Finset.range m.C, ∑ z ∈ Finset.range m.Z, ∑ x ∈ Finset.range m.X,
    ∑ y ∈ Finset.range m.Y, (if m.val ch z x y = v then 1 else 0)

/-- `TiffConnector.label_count_for_image`: the dict
`{l: np.count_nonzero(mat == l) for l in np.unique(mat) if l > 0}` as a
lookup function; a key is present exactly when the value is positive and
occurs somewhere in the mapped matrix. -/
def label_count_for_image (env : Env) (c : TiffConn) (image_nr : Nat) :
    Option (Nat → Option Nat) :=
  (load_label_matrix env c image_nr false).map (fun m => fun l =>
    if 0 < l ∧ 0 < count4d m l then some (count4d m l) else none)

/-- A 3-d probability-map volume (z, x, y); only entry values are modelled,
the file's extents being importer bookkeeping outside the model. -/
def ProbImg (α : Type) := Nat → Nat → Nat → α

/-- The output directory: the probability-map files present, by path. -/
def FS (α : Type) := String → Option (ProbImg α)

/-- A numpy pixel block handed to `put_tile`: its shape, of arbitrary rank
(`len(pixels.shape)` is what `put_tile` checks), plus entries read at 3-d
indices. -/
structure PixBlock (α : Type) where
  shape : List Nat
  val : Nat → Nat → Nat → α

/-- The `ValueError`s reachable from `TiffConnector.put_tile`. -/
inductive PutError where
  | posNotLength3
  | pixelsNot3d
  | savepathNotSet
deriving DecidableEq, Repr

/-- Modelled from the spec: `yapic_io.utils.add_to_filename` is not in src/.
Per the spec, probability-map file names are derived from the source image
filename by inserting the marker before the extension. -/
def add_to_filename (fname addition : String) : String :=
  let parts := fname.splitOn "."
  if parts.length ≥ 2 then
    String.intercalate "." parts.dropLast ++ "_" ++ addition ++ "." ++ parts.getLastD ""
  else fname ++ "_" ++ addition

/-- `TiffConnector.get_probmap_path`: `ValueError` when no savepath is
configured, otherwise the `class_<label_value>` output path. -/
def get_probmap_path (c : TiffConn) (image_nr label_value : Nat) :
    Except PutError String :=
  match c.savepath with
  | none => .error .savepathNotSet
  | some sp =>
    .ok (joinPath sp (add_to_filename (c.filenames.getD image_nr default).img
          ("class_" ++ toString label_value)))

/-- Modelled from the spec: the importer's `init_empty_tiff_image` creates
an output volume filled with a neutral/zero value. -/
def init_empty_file {α : Type} [Zero α] (fs : FS α) (path : String) : FS α :=
  fun p => if p = path then some (fun _ _ _ => 0) else fs p

/-- `TiffConnector.init_probmap_image`: creates the per-class output file
only when it does not exist yet (or when `overwrite`), returning its path
and the resulting directory state. -/
def init_probmap_image {α : Type} [Zero α] (c : TiffConn) (fs : FS α)
    (image_nr label_value : Nat) (overwrite : Bool) :
    Except PutError (String × FS α) :=
  match get_probmap_path c image_nr label_value with
  | .error e => .error e
  | .ok out_path =>
    if (fs out_path).isNone || overwrite then
      .ok (out_path, init_empty_file fs out_path)
    else .ok (out_path, fs)

/-- The half-open 3-d block written by a `put_tile` call: offset `pos`,
extents the first three entries of the block's shape. -/
def inRegion (pos shape : List Nat) (z x y : Nat) : Prop :=
  (pos.getD 0 0 ≤ z ∧ z < pos.getD 0 0 + shape.getD 0 0) ∧
  (pos.getD 1 0 ≤ x ∧ x < pos.getD 1 0 + shape.getD 1 0) ∧
  (pos.getD 2 0 ≤ y ∧ y < pos.getD 2 0 + shape.getD 2 0)

instance (pos shape : List Nat) (z x y : Nat) : Decidable (inRegion pos shape z x y) := by
  unfold inRegion
  infer_instance

/-- Modelled from the spec: the importer's `add_vals_to_tiff_image` writes a
3-d block into the existing output volume at the given offset, entries
outside the block region keeping their previous values. -/
def add_vals_to_tiff_image {α : Type} (fs : FS α) (path : String)
    (pos : List Nat) (pixels : PixBlock α) : FS α :=
  fun p => if p = path then
      (fs p).map (fun img => fun z x y =>
        if inRegion pos pixels.shape z x y then
          pixels.val (z - pos.getD 0 0) (x - pos.getD 1 0) (y - pos.getD 2 0)
        else img z x y)
    else fs p

/-- `TiffConnector.put_tile`: the two arity checks raise first, then the
output file is lazily initialized (`overwrite=False`) and the block
written. The result is the directory state after the call paired with the
raised error, if any; on an error the state is returned unchanged — no
file has been created or written. -/
def put_tile {α : Type} [Zero α] (c : TiffConn) (fs : FS α) (pixels : PixBlock α)
    (pos_zxy : List Nat) (image_nr label_value : Nat) : FS α × Option PutError :=
  if pos_zxy.length ≠ 3 then (fs, some .posNotLength3)
  else if pixels.shape.length ≠ 3 then (fs, some .pixelsNot3d)
  else
    match init_probmap_image c fs image_nr label_value false with
    | .error e => (fs, some e)
    | .ok (out_path, fs1) =>
      (add_vals_to_tiff_image fs1 out_path pos_zxy pixels, none)

/-- Spatial agreement required of one file pair (vacuous without a label):
the label matrix's trailing (z, x, y) dimensions equal the image's. -/
def entryOk (env : Env) (img_path label_path : String) (fp : FilePair) : Prop :=
  ∀ lf, fp.lbl = some lf →
    (lblDims env (joinPath label_path lf)).tail
      = (env.imgDims (joinPath img_path fp.img)).tail

/-- The label channel count of a pair, `none` without a label. -/
def chOf (env : Env) (label_path : String) (fp : FilePair) : Option Nat :=
  fp.lbl.map (fun lf => (lblDims env (joinPath label_path lf)).headD 0)

/-- Every labeled pair of the list carries `n` label channels. -/
def channelsConsistent (env : Env) (label_path : String) (l : List FilePair) (n : Nat) : Prop :=
  ∀ fp ∈ l, ∀ m, chOf env label_path fp = some m → m = n

/-- A concrete environment: every pixel image 1×1×2×2, every label file a
1-channel 1×2×2 matrix labelling position (0, 0, 0) with raw value 7. -/
def envW : Env :=
  ⟨fun _ => [1, 1, 2, 2],
   fun _ => ⟨1, 1, 2, 2, fun _ _ x y => if x = 0 ∧ y = 0 then 7 else 0⟩⟩

/-- A concrete connector holding one unlabeled image. -/
def connW : TiffConn := ⟨"im", "lb", none, [⟨"a.tif", none⟩], []⟩

/-- An empty output directory. -/
def fsEmpty : FS Nat := fun _ => none

/-- A rank-1 pixel block (wrong dimensionality for `put_tile`). -/
def blockBad : PixBlock Nat := ⟨[4], fun _ _ _ => 5⟩

/-- A connector with a savepath, for exercising `put_tile`. -/
def connW8 : TiffConn := ⟨"im", "lb", some "out", [⟨"a.tif", none⟩], []⟩

/-- A 1×1×1 pixel block writing value 5 at the origin. -/
def blockA : PixBlock Nat := ⟨[1, 1, 1], fun _ _ _ => 5⟩

/-- A 1×1×1 pixel block writing value 9 at offset (0, 1, 1). -/
def blockB : PixBlock Nat := ⟨[1, 1, 1], fun _ _ _ => 9⟩

/-- An environment whose label file `lb/l1.tif` has 1 channel and whose
other label files have 2 channels, all spatial dimensions 4×5×6 and all
pixel images 1×4×5×6. -/
def envC3 : Env :=
  ⟨fun _ => [1, 4, 5, 6],
   fun p => if p = "lb/l1.tif" then ⟨1, 4, 5, 6, fun _ _ _ _ => 0⟩
            else ⟨2, 4, 5, 6, fun _ _ _ _ => 0⟩⟩

/-- A connector over one labeled and one unlabeled image under `envW`, its
mapping the one the constructor computes. -/
def connW7 : TiffConn :=
  ⟨"im", "lb", none, [⟨"a.tif", some "al.tif"⟩, ⟨"b.tif", none⟩],
   map_label_values (original_label_values_for_all_images envW "lb"
     [⟨"a.tif", some "al.tif"⟩, ⟨"b.tif", none⟩])⟩

/-- A 1×1×1×1 label matrix whose single entry carries raw value 7. -/
def matC5a : LabelMat := ⟨1, 1, 1, 1, fun _ _ _ _ => 7⟩

/-- A 1×1×1×1 label matrix whose single entry carries raw value 8. -/
def matC5b : LabelMat := ⟨1, 1, 1, 1, fun _ _ _ _ => 8⟩

/-- An environment where image a's label holds raw value 7 and image b's
raw value 8, all volumes a single voxel. -/
def envC5 : Env :=
  ⟨fun _ => [1, 1, 1, 1],
   fun p => if p = "lb/al.tif" then matC5a else matC5b⟩

/-- The connector over images a and b under `envC5`, with its mapping
`[{7: 1, 8: 2}]` written out (the constructor produces exactly this
connector — certified by `connC5_constructed` below), so 2 is a valid
mapped value that image a does not contain. -/
def connC5 : TiffConn :=
  ⟨"im", "lb", none, [⟨"a.tif", some "al.tif"⟩, ⟨"b.tif", some "bl.tif"⟩],
   [[(7, 1), (8, 2)]]⟩

/-- A connector holding the same image filename twice, as the
caller-supplied-list branch allows (`TiffConnector(['d/a.tif', 'd/a.tif'],
[None, None])`). -/
def connDup : TiffConn :=
  ⟨"d", "lb", none, [⟨"a.tif", none⟩, ⟨"a.tif", none⟩], []⟩

/-- The first half of splitting `connC5` with a mask that keeps only image
a: its `labelvalue_mapping` is the parent's, written over the recomputed
one (tiff_connector.py lines 222-223). -/
def connC5a : TiffConn :=
  ⟨"im", "lb", none, [⟨"a.tif", some "al.tif"⟩], [[(7, 1), (8, 2)]]⟩

/-- The second half of that split. -/
def connC5b : TiffConn :=
  ⟨"im", "lb", none, [⟨"b.tif", some "bl.tif"⟩], [[(7, 1), (8, 2)]]⟩

/-- The mapped label matrix of `connW7`'s labeled image. -/
def matW7mapped : LabelMat :=
  assign_slice_by_slice connW7.labelvalue_mapping (envW.lblMat (joinPath "lb" "al.tif"))

/-- The mapped label matrix of `connC5`'s image a. -/
def matC5mapped : LabelMat :=
  assign_slice_by_slice connC5.labelvalue_mapping (envC5.lblMat (joinPath "lb" "al.tif"))

theorem mapChannelsFrom_getD (lss : List (List Nat)) :
    ∀ (k i : Nat), (mapChannelsFrom k lss).getD i [] =
      (lss.getD i []).enum.map
        (fun p => (p.2, k + (((lss.take i).map List.length).sum) + p.1)) := by
  induction lss with
  | nil => intro k i; simp [mapChannelsFrom]
  | cons hd tl ih =>
    intro k i
    cases i with
    | zero => simp [mapChannelsFrom]
    | succ n =>
      have h := ih (k + hd.length) n
      simpa [mapChannelsFrom, Nat.add_assoc] using h

theorem mapChannelsFrom_length (lss : List (List Nat)) :
    ∀ k, (mapChannelsFrom k lss).length = lss.length := by
  induction lss with
  | nil => intro k; simp [mapChannelsFrom]
  | cons hd tl ih => intro k; simp [mapChannelsFrom, ih]

theorem map_label_values_length (sets : List (Finset Nat)) :
    (map_label_values sets).length = sets.length := by
  simp [map_label_values, mapChannelsFrom_length]

/-- The keys of channel `i`'s mapping, in order, are the sorted raw values
of channel `i`. -/
theorem map_label_values_keys (sets : List (Finset Nat)) (i : Nat) (hi : i < sets.length) :
    ((map_label_values sets).getD i []).map Prod.fst = (sets.getD i ∅).sort (· ≤ ·) := by
  rw [map_label_values, mapChannelsFrom_getD]
  rw [List.map_map]
  have h1 : (Prod.fst ∘ fun p : Nat × Nat =>
      ((p.2 : Nat), 1 + (((((sets.map (fun s => s.sort (· ≤ ·))).take i).map List.length).sum)) + p.1))
      = Prod.snd := rfl
  rw [h1, List.enum_map_snd]
  have h2 : (sets.map (fun s => s.sort (· ≤ ·))).getD i [] = (sets.getD i ∅).sort (· ≤ ·) := by
    rw [List.getD_eq_getElem?_getD, List.getD_eq_getElem?_getD, List.getElem?_map]
    have : sets[i]? = some (sets.getD i ∅) := by
      rw [List.getD_eq_getElem?_getD]
      cases h : sets[i]? with
      | none => exact absurd (List.getElem?_eq_none_iff.mp h) (Nat.not_le.mpr hi)
      | some v => simp
    rw [this]
    rfl
  rw [h2]

theorem take_map_sort_lengths (sets : List (Finset Nat)) (i : Nat) :
    (((sets.map (fun s => s.sort (· ≤ ·))).take i).map List.length).sum
      = ((sets.take i).map Finset.card).sum := by
  rw [← List.map_take, List.map_map]
  congr 1
  apply List.map_congr_left
  intro s _
  simp [Finset.length_sort]

/-- The ids of channel `i`'s mapping, in order, are the contiguous run
starting at `idStart sets i` of length `card`. -/
theorem map_label_values_ids (sets : List (Finset Nat)) (i : Nat) (hi : i < sets.length) :
    ((map_label_values sets).getD i []).map Prod.snd
      = List.range' (idStart sets i) ((sets.getD i ∅).card) := by
  rw [map_label_values, mapChannelsFrom_getD]
  rw [List.map_map]
  have h1 : (Prod.snd ∘ fun p : Nat × Nat =>
      ((p.2 : Nat), 1 + (((((sets.map (fun s => s.sort (· ≤ ·))).take i).map List.length).sum)) + p.1))
      = (fun p : Nat × Nat => 1 + (((((sets.map (fun s => s.sort (· ≤ ·))).take i).map List.length).sum)) + p.1) := rfl
  rw [h1]
  have h2 : ∀ (l : List Nat) (a : Nat),
      l.enum.map (fun p : Nat × Nat => a + p.1) = List.range' a l.length := by
    intro l a
    have : (fun p : Nat × Nat => a + p.1) = ((fun n => a + n) ∘ Prod.fst) := rfl
    rw [this, ← List.map_map, List.enum_map_fst, List.range'_eq_map_range]
  rw [h2, take_map_sort_lengths]
  have h3 : ((sets.map (fun s => s.sort (· ≤ ·))).getD i []).length = (sets.getD i ∅).card := by
    rw [List.getD_eq_getElem?_getD, List.getD_eq_getElem?_getD, List.getElem?_map]
    cases h : sets[i]? with
    | none => exact absurd (List.getElem?_eq_none_iff.mp h) (Nat.not_le.mpr hi)
    | some v => simp [Finset.length_sort]
  rw [h3]
  rfl

/-- Channel `i`'s ids lie in `[idStart sets i, idStart sets i + card i)`. -/
theorem map_label_values_id_mem (sets : List (Finset Nat)) (i : Nat) (hi : i < sets.length)
    (p : Nat × Nat) (hp : p ∈ (map_label_values sets).getD i []) :
    idStart sets i ≤ p.2 ∧ p.2 < idStart sets i + (sets.getD i ∅).card := by
  have hmem : p.2 ∈ ((map_label_values sets).getD i []).map Prod.snd :=
    List.mem_map_of_mem Prod.snd hp
  rw [map_label_values_ids sets i hi] at hmem
  exact List.mem_range'_1.mp hmem

theorem idStart_add_card_le (sets : List (Finset Nat)) (i j : Nat)
    (hij : i < j) (hj : j < sets.length) :
    idStart sets i + (sets.getD i ∅).card ≤ idStart sets j := by
  unfold idStart
  have hlen : i < sets.length := Nat.lt_trans hij hj
  have h1 : sets.take j = sets.take i ++ ((sets.drop i).take (j - i)) := by
    have h2 : sets.take (i + (j - i)) = sets.take i ++ ((sets.drop i).take (j - i)) :=
      List.take_add sets i (j - i)
    have h3 : i + (j - i) = j := by omega
    rw [h3] at h2
    exact h2
  rw [h1, List.map_append, List.sum_append]
  have hd : sets.drop i = sets.getD i ∅ :: sets.drop (i+1) := by
    rw [List.getD_eq_getElem?_getD, List.getElem?_eq_getElem hlen, Option.getD_some]
    exact List.drop_eq_getElem_cons hlen
  have hdrop : (sets.drop i).take (j - i)
      = sets.getD i ∅ :: ((sets.drop (i+1)).take (j - i - 1)) := by
    rw [hd]
    cases hji : j - i with
    | zero => omega
    | succ n =>
      rw [List.take_succ_cons]
      simp
  rw [hdrop]
  simp only [List.map_cons, List.sum_cons]
  omega

/-- Ids of distinct channels never coincide. -/
theorem map_label_values_disjoint (sets : List (Finset Nat)) (i j : Nat)
    (hi : i < sets.length) (hj : j < sets.length) (hij : i ≠ j)
    (p : Nat × Nat) (hp : p ∈ (map_label_values sets).getD i [])
    (q : Nat × Nat) (hq : q ∈ (map_label_values sets).getD j []) :
    p.2 ≠ q.2 := by
  have hpm := map_label_values_id_mem sets i hi p hp
  have hqm := map_label_values_id_mem sets j hj q hq
  rcases Nat.lt_or_ge i j with h | h
  · have := idStart_add_card_le sets i j h hj
    omega
  · have hji : j < i := Nat.lt_of_le_of_ne h (fun e => hij e.symm)
    have := idStart_add_card_le sets j i hji hi
    omega

/-- Every assigned id is at least 1 (the counter starts at
`itertools.count(1)`). -/
theorem map_label_values_id_pos (sets : List (Finset Nat))
    (l : List (Nat × Nat)) (hl : l ∈ map_label_values sets)
    (p : Nat × Nat) (hp : p ∈ l) : 1 ≤ p.2 := by
  have key : ∀ (lss : List (List Nat)) (k : Nat), 1 ≤ k →
      ∀ l ∈ mapChannelsFrom k lss, ∀ p : Nat × Nat, p ∈ l → 1 ≤ p.2 := by
    intro lss
    induction lss with
    | nil => intro k hk l hl; simp [mapChannelsFrom] at hl
    | cons hd tl ih =>
      intro k hk l hl p hp
      rw [mapChannelsFrom] at hl
      rcases List.mem_cons.mp hl with h | h
      · subst h
        rcases List.mem_map.mp hp with ⟨q, _, hq⟩
        rw [← hq]
        omega
      · exact ih (k + hd.length) (by omega) l h p hp
  exact key _ 1 (Nat.le_refl 1) l hl p hp

/-- If no channel's raw-value set contains 0, then 0 is never a key. -/
theorem map_label_values_key_ne_zero (sets : List (Finset Nat))
    (h0 : ∀ s ∈ sets, 0 ∉ s)
    (l : List (Nat × Nat)) (hl : l ∈ map_label_values sets)
    (p : Nat × Nat) (hp : p ∈ l) : p.1 ≠ 0 := by
  rcases List.mem_iff_getElem.mp hl with ⟨i, hi, hgl⟩
  have hlen : i < sets.length := by
    have := map_label_values_length sets
    omega
  have hgd : (map_label_values sets).getD i [] = l := by
    rw [List.getD_eq_getElem?_getD, List.getElem?_eq_getElem hi, hgl]
    rfl
  have hkeys := map_label_values_keys sets i hlen
  rw [hgd] at hkeys
  have hmem : p.1 ∈ l.map Prod.fst := List.mem_map_of_mem Prod.fst hp
  rw [hkeys] at hmem
  have hs : p.1 ∈ sets.getD i ∅ := (Finset.mem_sort (α := Nat) (· ≤ ·)).mp hmem
  have hset : sets.getD i ∅ ∈ sets := by
    rw [List.getD_eq_getElem?_getD, List.getElem?_eq_getElem hlen]
    exact List.getElem_mem hlen
  intro hzero
  exact h0 _ hset (hzero ▸ hs)

/-- C1: `map_label_values` assigns, per channel, ascending ids starting at 1
to the sorted raw label values from one global counter shared across
channels: channel `i`'s keys are exactly its sorted raw values, its ids the
contiguous run starting at `idStart sets i`, ids of distinct channels are
disjoint, and (when no input set contains 0, as is guaranteed by
`unique_labels_per_channel`) 0 is never a key. Determinism is inherent:
`map_label_values` is a function of the list of raw-value sets. -/
theorem map_label_values_spec (sets : List (Finset Nat))
    (h0 : ∀ s ∈ sets, 0 ∉ s) :
    (map_label_values sets).length = sets.length ∧
    (∀ i, i < sets.length →
      ((map_label_values sets).getD i []).map Prod.fst = (sets.getD i ∅).sort (· ≤ ·) ∧
      ((map_label_values sets).getD i []).map Prod.snd
        = List.range' (idStart sets i) ((sets.getD i ∅).card)) ∧
    (∀ i j, i < sets.length → j < sets.length → i ≠ j →
      ∀ p ∈ (map_label_values sets).getD i [],
        ∀ q ∈ (map_label_values sets).getD j [], p.2 ≠ q.2) ∧
    (∀ l ∈ map_label_values sets, ∀ p ∈ l, p.1 ≠ 0 ∧ 1 ≤ p.2) := by
  refine ⟨map_label_values_length sets, ?_, ?_, ?_⟩
  · intro i hi
    exact ⟨map_label_values_keys sets i hi, map_label_values_ids sets i hi⟩
  · intro i j hi hj hij p hp q hq
    exact map_label_values_disjoint sets i j hi hj hij p hp q hq
  · intro l hl p hp
    exact ⟨map_label_values_key_ne_zero sets h0 l hl p hp,
           map_label_values_id_pos sets l hl p hp⟩

/-- C1 witness: the spec's end-to-end example, channel 0 carrying raw values
`{90, 91, 100, 109}` and channel 1 carrying `{5}`. -/
theorem map_label_values_spec_witness :
    (∀ s ∈ [({90, 91, 100, 109} : Finset Nat), {5}], 0 ∉ s) ∧
    ((map_label_values [({90, 91, 100, 109} : Finset Nat), {5}]).length = 2 ∧
    (∀ i, i < ([({90, 91, 100, 109} : Finset Nat), {5}]).length →
      ((map_label_values [({90, 91, 100, 109} : Finset Nat), {5}]).getD i []).map Prod.fst
        = (([({90, 91, 100, 109} : Finset Nat), {5}]).getD i ∅).sort (· ≤ ·) ∧
      ((map_label_values [({90, 91, 100, 109} : Finset Nat), {5}]).getD i []).map Prod.snd
        = List.range' (idStart [({90, 91, 100, 109} : Finset Nat), {5}] i)
            ((([({90, 91, 100, 109} : Finset Nat), {5}]).getD i ∅).card)) ∧
    (∀ i j, i < ([({90, 91, 100, 109} : Finset Nat), {5}]).length →
        j < ([({90, 91, 100, 109} : Finset Nat), {5}]).length → i ≠ j →
      ∀ p ∈ (map_label_values [({90, 91, 100, 109} : Finset Nat), {5}]).getD i [],
        ∀ q ∈ (map_label_values [({90, 91, 100, 109} : Finset Nat), {5}]).getD j [], p.2 ≠ q.2) ∧
    (∀ l ∈ map_label_values [({90, 91, 100, 109} : Finset Nat), {5}], ∀ p ∈ l, p.1 ≠ 0 ∧ 1 ≤ p.2)) := by
  constructor
  · decide
  · exact map_label_values_spec [({90, 91, 100, 109} : Finset Nat), {5}] (by decide)

/-- C10: for an image whose FilePair has no label filename,
`label_matrix_dimensions`, `load_label_matrix` (both raw and mapped mode)
and `label_count_for_image` all return `None` rather than raising. -/
theorem unlabeled_image_returns_none (env : Env) (c : TiffConn) (i : Nat)
    (h : (c.filenames.getD i default).lbl = none) :
    label_matrix_dimensions env c i = none ∧
    load_label_matrix env c i true = none ∧
    load_label_matrix env c i false = none ∧
    label_count_for_image env c i = none := by
  have h' : (c.filenames[i]?.getD default).lbl = none := by
    rw [← List.getD_eq_getElem?_getD]
    exact h
  refine ⟨?_, ?_, ?_, ?_⟩ <;>
    simp [label_matrix_dimensions, load_label_matrix, label_count_for_image, h']

/-- C10 witness: the three calls on the unlabeled image of `connW`. -/
theorem unlabeled_image_returns_none_witness :
    ((connW.filenames.getD 0 default).lbl = none) ∧
    (label_matrix_dimensions envW connW 0 = none ∧
     load_label_matrix envW connW 0 true = none ∧
     load_label_matrix envW connW 0 false = none ∧
     label_count_for_image envW connW 0 = none) :=
  ⟨rfl, unlabeled_image_returns_none envW connW 0 rfl⟩

/-- C9: `put_tile` raises a `ValueError` immediately when `pos_zxy` does not
have exactly 3 components or the pixel block is not 3-dimensional, and the
output directory is returned unchanged — no file is created or written
before the check. The position-arity check fires first. -/
theorem put_tile_contract_violation {α : Type} [Zero α] (c : TiffConn) (fs : FS α)
    (pixels : PixBlock α) (pos_zxy : List Nat) (image_nr label_value : Nat)
    (h : pos_zxy.length ≠ 3 ∨ pixels.shape.length ≠ 3) :
    (put_tile c fs pixels pos_zxy image_nr label_value).1 = fs ∧
    (put_tile c fs pixels pos_zxy image_nr label_value).2.isSome = true ∧
    (pos_zxy.length ≠ 3 →
      (put_tile c fs pixels pos_zxy image_nr label_value).2 = some .posNotLength3) ∧
    (pos_zxy.length = 3 → pixels.shape.length ≠ 3 →
      (put_tile c fs pixels pos_zxy image_nr label_value).2 = some .pixelsNot3d) := by
  by_cases hp : pos_zxy.length = 3
  · have hs : pixels.shape.length ≠ 3 := by tauto
    refine ⟨?_, ?_, ?_, ?_⟩
    · simp [put_tile, hp, hs]
    · simp [put_tile, hp, hs]
    · intro hc
      exact absurd hp hc
    · intro _ _
      simp [put_tile, hp, hs]
  · refine ⟨?_, ?_, ?_, ?_⟩
    · simp [put_tile, hp]
    · simp [put_tile, hp]
    · intro _
      simp [put_tile, hp]
    · intro hc _
      exact absurd hc hp

/-- C9 witness: an empty position tuple on the empty directory. -/
theorem put_tile_contract_violation_witness :
    (([] : List Nat).length ≠ 3 ∨ blockBad.shape.length ≠ 3) ∧
    ((put_tile connW fsEmpty blockBad [] 0 1).1 = fsEmpty ∧
     (put_tile connW fsEmpty blockBad [] 0 1).2.isSome = true ∧
     (([] : List Nat).length ≠ 3 →
       (put_tile connW fsEmpty blockBad [] 0 1).2 = some .posNotLength3) ∧
     (([] : List Nat).length = 3 → blockBad.shape.length ≠ 3 →
       (put_tile connW fsEmpty blockBad [] 0 1).2 = some .pixelsNot3d)) :=
  ⟨Or.inl (by decide),
   put_tile_contract_violation connW fsEmpty blockBad [] 0 1 (Or.inl (by decide))⟩

/-- C8: on a fresh output directory the first `put_tile` call creates the
per-class output file — its contents are the written block over a
zero-filled volume — and a subsequent call for the same image and label
value does not reinitialize it: the second call's result is the second
block written over the first call's file, every entry outside the second
block keeping the value written by the first call instead of being reset
to zero. -/
theorem put_tile_first_creates_then_no_reinit {α : Type} [Zero α] (c : TiffConn)
    (sp : String) (hsp : c.savepath = some sp)
    (fs : FS α) (hfresh : ∀ p, fs p = none)
    (pix1 pix2 : PixBlock α) (pos1 pos2 : List Nat) (image_nr label_value : Nat)
    (hp1 : pos1.length = 3) (hs1 : pix1.shape.length = 3)
    (hp2 : pos2.length = 3) (hs2 : pix2.shape.length = 3) :
    fs (joinPath sp (add_to_filename (c.filenames.getD image_nr default).img
        ("class_" ++ toString label_value))) = none ∧
    (put_tile c fs pix1 pos1 image_nr label_value).2 = none ∧
    (put_tile c fs pix1 pos1 image_nr label_value).1
        (joinPath sp (add_to_filename (c.filenames.getD image_nr default).img
          ("class_" ++ toString label_value)))
      = some (fun z x y =>
          if inRegion pos1 pix1.shape z x y then
            pix1.val (z - pos1.getD 0 0) (x - pos1.getD 1 0) (y - pos1.getD 2 0)
          else 0) ∧
    (put_tile c (put_tile c fs pix1 pos1 image_nr label_value).1
        pix2 pos2 image_nr label_value).2 = none ∧
    (put_tile c (put_tile c fs pix1 pos1 image_nr label_value).1
        pix2 pos2 image_nr label_value).1
        (joinPath sp (add_to_filename (c.filenames.getD image_nr default).img
          ("class_" ++ toString label_value)))
      = some (fun z x y =>
          if inRegion pos2 pix2.shape z x y then
            pix2.val (z - pos2.getD 0 0) (x - pos2.getD 1 0) (y - pos2.getD 2 0)
          else if inRegion pos1 pix1.shape z x y then
            pix1.val (z - pos1.getD 0 0) (x - pos1.getD 1 0) (y - pos1.getD 2 0)
          else 0) := by
  have hgp : get_probmap_path c image_nr label_value
      = .ok (joinPath sp (add_to_filename (c.filenames.getD image_nr default).img
          ("class_" ++ toString label_value))) := by
    simp [get_probmap_path, hsp]
  have h1 : put_tile c fs pix1 pos1 image_nr label_value
      = (add_vals_to_tiff_image
          (init_empty_file fs (joinPath sp (add_to_filename
            (c.filenames.getD image_nr default).img ("class_" ++ toString label_value))))
          (joinPath sp (add_to_filename (c.filenames.getD image_nr default).img
            ("class_" ++ toString label_value))) pos1 pix1, none) := by
    simp [put_tile, hp1, hs1, init_probmap_image, hgp, hfresh]
  refine ⟨hfresh _, ?_, ?_, ?_, ?_⟩
  · rw [h1]
  · rw [h1]
    simp [add_vals_to_tiff_image, init_empty_file]
  · rw [h1]
    simp [put_tile, hp2, hs2, init_probmap_image, hgp, add_vals_to_tiff_image,
      init_empty_file]
  · rw [h1]
    simp [put_tile, hp2, hs2, init_probmap_image, hgp, add_vals_to_tiff_image,
      init_empty_file]

/-- C8 witness: two writes of 1×1×1 blocks at distinct offsets into a fresh
directory. -/
theorem put_tile_first_creates_then_no_reinit_witness :
    fsEmpty (joinPath "out" (add_to_filename (connW8.filenames.getD 0 default).img
        ("class_" ++ toString 1))) = none ∧
    (put_tile connW8 fsEmpty blockA [0, 0, 0] 0 1).2 = none ∧
    (put_tile connW8 fsEmpty blockA [0, 0, 0] 0 1).1
        (joinPath "out" (add_to_filename (connW8.filenames.getD 0 default).img
          ("class_" ++ toString 1)))
      = some (fun z x y =>
          if inRegion [0, 0, 0] blockA.shape z x y then
            blockA.val (z - [0, 0, 0].getD 0 0) (x - [0, 0, 0].getD 1 0)
              (y - [0, 0, 0].getD 2 0)
          else 0) ∧
    (put_tile connW8 (put_tile connW8 fsEmpty blockA [0, 0, 0] 0 1).1
        blockB [0, 1, 1] 0 1).2 = none ∧
    (put_tile connW8 (put_tile connW8 fsEmpty blockA [0, 0, 0] 0 1).1
        blockB [0, 1, 1] 0 1).1
        (joinPath "out" (add_to_filename (connW8.filenames.getD 0 default).img
          ("class_" ++ toString 1)))
      = some (fun z x y =>
          if inRegion [0, 1, 1] blockB.shape z x y then
            blockB.val (z - [0, 1, 1].getD 0 0) (x - [0, 1, 1].getD 1 0)
              (y - [0, 1, 1].getD 2 0)
          else if inRegion [0, 0, 0] blockA.shape z x y then
            blockA.val (z - [0, 0, 0].getD 0 0) (x - [0, 0, 0].getD 1 0)
              (y - [0, 0, 0].getD 2 0)
          else 0) :=
  put_tile_first_creates_then_no_reinit connW8 "out" rfl fsEmpty (fun _ => rfl)
    blockA blockB [0, 0, 0] [0, 1, 1] 0 1 rfl rfl rfl rfl

theorem zip_mk_map_img (imgs : List String) :
    ∀ lbls : List (Option String),
      (((imgs.zip lbls).map (fun p => FilePair.mk p.1 p.2)).map FilePair.img)
        = imgs.take lbls.length := by
  induction imgs with
  | nil => intro lbls; simp
  | cons a l ih =>
    intro lbls
    cases lbls with
    | nil => simp
    | cons b m => simp [ih]

/-- C6 counterexample: with the caller-supplied lists `['a.tif', 'b.tif']`
and `[None]`, construction succeeds (the size mismatch is only warned
about) but `zip` silently drops the second image: the FilePair list's image
side is `['a.tif']`, so it does not enumerate every supplied image. -/
theorem mk_drops_unmatched_images :
    mkTiffConnector envW "im" "lb" none ["a.tif", "b.tif"] [none]
      = .ok ⟨"im", "lb", none, [⟨"a.tif", none⟩], []⟩ ∧
    "b.tif" ∉ ([(⟨"a.tif", none⟩ : FilePair)].map FilePair.img) := by
  constructor
  · rfl
  · decide

/-- C6 (amended): the caller-supplied-list branch pairs the two lists
positionally, truncated to the shorter one: construction succeeds (a size
mismatch is logged, not raised), the FilePair list is the positional zip
with `None` an allowed label entry, its image side is the first
`len(lbl_filenames)` images — so it enumerates every supplied image exactly
once precisely when the label list is at least as long as the image
list. -/
theorem mk_filenames_positional_zip (env : Env) (img_path label_path : String)
    (sp : Option String) (imgs : List String) (lbls : List (Option String))
    (hck : check_label_matrix_dimensions env img_path label_path
      ((imgs.zip lbls).map (fun p => FilePair.mk p.1 p.2)) = .ok ()) :
    ∃ c, mkTiffConnector env img_path label_path sp imgs lbls = .ok c ∧
      c.filenames = (imgs.zip lbls).map (fun p => FilePair.mk p.1 p.2) ∧
      c.filenames.map FilePair.img = imgs.take lbls.length ∧
      (imgs.length ≤ lbls.length → c.filenames.map FilePair.img = imgs) := by
  refine ⟨⟨img_path, label_path, sp, (imgs.zip lbls).map (fun p => FilePair.mk p.1 p.2),
    map_label_values (original_label_values_for_all_images env label_path
      ((imgs.zip lbls).map (fun p => FilePair.mk p.1 p.2)))⟩, ?_, rfl, ?_, ?_⟩
  · simp only [mkTiffConnector]
    rw [hck]
  · exact zip_mk_map_img imgs lbls
  · intro hle
    rw [zip_mk_map_img imgs lbls]
    exact List.take_of_length_le hle

/-- C6 witness: two images, the first labeled and the second explicitly
unlabeled (`None`), under `envW`. -/
theorem mk_filenames_positional_zip_witness :
    (check_label_matrix_dimensions envW "im" "lb"
      (((["a.tif", "b.tif"]).zip [some "al.tif", none]).map
        (fun p => FilePair.mk p.1 p.2)) = .ok ()) ∧
    (∃ c, mkTiffConnector envW "im" "lb" none ["a.tif", "b.tif"]
        [some "al.tif", none] = .ok c ∧
      c.filenames = ((["a.tif", "b.tif"]).zip [some "al.tif", none]).map
        (fun p => FilePair.mk p.1 p.2) ∧
      c.filenames.map FilePair.img
        = (["a.tif", "b.tif"]).take ([some "al.tif", none] : List (Option String)).length ∧
      ((["a.tif", "b.tif"] : List String).length
          ≤ ([some "al.tif", none] : List (Option String)).length →
        c.filenames.map FilePair.img = ["a.tif", "b.tif"])) :=
  ⟨rfl, mk_filenames_positional_zip envW "im" "lb" none ["a.tif", "b.tif"]
    [some "al.tif", none] rfl⟩

theorem mkTiffConnector_eq (env : Env) (ip lp : String) (sp : Option String)
    (imgs : List String) (lbls : List (Option String)) :
    mkTiffConnector env ip lp sp imgs lbls
      = match check_label_matrix_dimensions env ip lp
          ((imgs.zip lbls).map (fun p => FilePair.mk p.1 p.2)) with
        | .error e => .error e
        | .ok _ => .ok ⟨ip, lp, sp, (imgs.zip lbls).map (fun p => FilePair.mk p.1 p.2),
            map_label_values (original_label_values_for_all_images env lp
              ((imgs.zip lbls).map (fun p => FilePair.mk p.1 p.2)))⟩ := rfl

theorem checkFrom_some_ok_iff (env : Env) (ip lp : String) (n : Nat)
    (l : List FilePair) :
    ∀ i : Nat,
      (checkFrom env ip lp (some n) i l = .ok () ↔
      ∀ fp ∈ l, entryOk env ip lp fp ∧ ∀ m, chOf env lp fp = some m → m = n) := by
  induction l with
  | nil =>
    intro i
    simp [checkFrom]
  | cons fp rest ih =>
    intro i
    cases hl : fp.lbl with
    | none =>
      rw [show checkFrom env ip lp (some n) i (fp :: rest)
          = checkFrom env ip lp (some n) (i+1) rest by simp [checkFrom, hl]]
      rw [ih (i+1)]
      constructor
      · intro h fp' hfp'
        rcases List.mem_cons.mp hfp' with h1 | h1
        · subst h1
          constructor
          · intro lf hlf
            rw [hl] at hlf
            exact Option.noConfusion hlf
          · intro m hm
            simp [chOf, hl] at hm
        · exact h fp' h1
      · intro h fp' hfp'
        exact h fp' (List.mem_cons_of_mem _ hfp')
    | some lf =>
      by_cases hch : n = (lblDims env (joinPath lp lf)).head?.getD 0
      · by_cases hsh : (lblDims env (joinPath lp lf)).tail
            = (env.imgDims (joinPath ip fp.img)).tail
        · rw [show checkFrom env ip lp (some n) i (fp :: rest)
              = checkFrom env ip lp (some n) (i+1) rest by
            simp [checkFrom, hl, ← hch, hsh]]
          rw [ih (i+1)]
          constructor
          · intro h fp' hfp'
            rcases List.mem_cons.mp hfp' with h1 | h1
            · subst h1
              constructor
              · intro lf' hlf'
                rw [hl] at hlf'
                cases Option.some.inj hlf'
                exact hsh
              · intro m hm
                simp [chOf, hl] at hm
                omega
            · exact h fp' h1
          · intro h fp' hfp'
            exact h fp' (List.mem_cons_of_mem _ hfp')
        · constructor
          · intro h
            rw [show checkFrom env ip lp (some n) i (fp :: rest)
                = .error (.shapeMismatch ((env.imgDims (joinPath ip fp.img)).tail)
                    ((lblDims env (joinPath lp lf)).tail) i (joinPath ip lf)) by
              simp [checkFrom, hl, ← hch, hsh]] at h
            exact Except.noConfusion h
          · intro h
            exact absurd ((h fp (List.mem_cons_self _ _)).1 lf hl) hsh
      · constructor
        · intro h
          rw [show checkFrom env ip lp (some n) i (fp :: rest)
              = .error (.channelMismatch n ((lblDims env (joinPath lp lf)).head?.getD 0)) by
            simp [checkFrom, hl, hch]] at h
          exact Except.noConfusion h
        · intro h
          exact absurd (((h fp (List.mem_cons_self _ _)).2
            ((lblDims env (joinPath lp lf)).head?.getD 0)) (by simp [chOf, hl])).symm hch

theorem checkFrom_none_ok_of (env : Env) (ip lp : String) (n : Nat)
    (l : List FilePair) :
    ∀ i, (∀ fp ∈ l, entryOk env ip lp fp ∧ ∀ m, chOf env lp fp = some m → m = n) →
      checkFrom env ip lp none i l = .ok () := by
  induction l with
  | nil =>
    intro i _
    simp [checkFrom]
  | cons fp rest ih =>
    intro i h
    cases hl : fp.lbl with
    | none =>
      rw [show checkFrom env ip lp none i (fp :: rest)
          = checkFrom env ip lp none (i+1) rest by simp [checkFrom, hl]]
      exact ih (i+1) (fun fp' hfp' => h fp' (List.mem_cons_of_mem _ hfp'))
    | some lf =>
      have hch : (lblDims env (joinPath lp lf)).head?.getD 0 = n :=
        (h fp (List.mem_cons_self _ _)).2 _ (by simp [chOf, hl])
      have hsh : (lblDims env (joinPath lp lf)).tail
          = (env.imgDims (joinPath ip fp.img)).tail :=
        (h fp (List.mem_cons_self _ _)).1 lf hl
      rw [show checkFrom env ip lp none i (fp :: rest)
          = checkFrom env ip lp (some ((lblDims env (joinPath lp lf)).head?.getD 0))
              (i+1) rest by simp [checkFrom, hl, hsh]]
      rw [hch]
      exact (checkFrom_some_ok_iff env ip lp n rest (i+1)).mpr
        (fun fp' hfp' => h fp' (List.mem_cons_of_mem _ hfp'))

theorem checkFrom_none_ok_exists (env : Env) (ip lp : String) (l : List FilePair) :
    ∀ i, checkFrom env ip lp none i l = .ok () →
      ∃ n, ∀ fp ∈ l, entryOk env ip lp fp ∧ ∀ m, chOf env lp fp = some m → m = n := by
  induction l with
  | nil =>
    intro i _
    exact ⟨0, fun fp h => absurd h (List.not_mem_nil fp)⟩
  | cons fp rest ih =>
    intro i h
    cases hl : fp.lbl with
    | none =>
      rw [show checkFrom env ip lp none i (fp :: rest)
          = checkFrom env ip lp none (i+1) rest by simp [checkFrom, hl]] at h
      rcases ih (i+1) h with ⟨n, hn⟩
      refine ⟨n, ?_⟩
      intro fp' hfp'
      rcases List.mem_cons.mp hfp' with h1 | h1
      · subst h1
        constructor
        · intro lf hlf
          rw [hl] at hlf
          exact Option.noConfusion hlf
        · intro m hm
          simp [chOf, hl] at hm
      · exact hn fp' h1
    | some lf =>
      by_cases hsh : (lblDims env (joinPath lp lf)).tail
          = (env.imgDims (joinPath ip fp.img)).tail
      · rw [show checkFrom env ip lp none i (fp :: rest)
            = checkFrom env ip lp (some ((lblDims env (joinPath lp lf)).head?.getD 0))
                (i+1) rest by simp [checkFrom, hl, hsh]] at h
        have hrest := (checkFrom_some_ok_iff env ip lp _ rest (i+1)).mp h
        refine ⟨(lblDims env (joinPath lp lf)).head?.getD 0, ?_⟩
        intro fp' hfp'
        rcases List.mem_cons.mp hfp' with h1 | h1
        · subst h1
          constructor
          · intro lf' hlf'
            rw [hl] at hlf'
            cases Option.some.inj hlf'
            exact hsh
          · intro m hm
            simp [chOf, hl] at hm
            omega
        · exact hrest fp' h1
      · rw [show checkFrom env ip lp none i (fp :: rest)
            = .error (.shapeMismatch ((env.imgDims (joinPath ip fp.img)).tail)
                ((lblDims env (joinPath lp lf)).tail) i (joinPath ip lf)) by
          simp [checkFrom, hl, hsh]] at h
        exact Except.noConfusion h

theorem checkFrom_shape_error (env : Env) (ip lp : String) (l : List FilePair) :
    ∀ (nch : Option Nat) (i0 : Nat) (d1 d2 : List Nat) (j : Nat) (pth : String),
      checkFrom env ip lp nch i0 l = .error (.shapeMismatch d1 d2 j pth) →
      i0 ≤ j ∧ j - i0 < l.length ∧
      ∃ lf, (l.getD (j - i0) default).lbl = some lf ∧
        d1 = (env.imgDims (joinPath ip (l.getD (j - i0) default).img)).tail ∧
        d2 = (lblDims env (joinPath lp lf)).tail ∧
        d1 ≠ d2 ∧ pth = joinPath ip lf := by
  induction l with
  | nil =>
    intro nch i0 d1 d2 j pth h
    rw [show checkFrom env ip lp nch i0 [] = .ok () from rfl] at h
    exact Except.noConfusion h
  | cons fp rest ih =>
    intro nch i0 d1 d2 j pth h
    cases hl : fp.lbl with
    | none =>
      rw [show checkFrom env ip lp nch i0 (fp :: rest)
          = checkFrom env ip lp nch (i0+1) rest by simp [checkFrom, hl]] at h
      rcases ih nch (i0+1) d1 d2 j pth h with ⟨hle, hlt, lf, hgd, h1, h2, h3, h4⟩
      refine ⟨by omega, by simp only [List.length_cons]; omega, lf, ?_, ?_, h2, h3, h4⟩
      · rw [show j - i0 = (j - (i0+1)) + 1 by omega]
        simpa using hgd
      · rw [show j - i0 = (j - (i0+1)) + 1 by omega]
        simpa using h1
    | some lf0 =>
      by_cases hch : nch.getD ((lblDims env (joinPath lp lf0)).head?.getD 0)
          = (lblDims env (joinPath lp lf0)).head?.getD 0
      · by_cases hsh : (lblDims env (joinPath lp lf0)).tail
            = (env.imgDims (joinPath ip fp.img)).tail
        · rw [show checkFrom env ip lp nch i0 (fp :: rest)
              = checkFrom env ip lp
                  (some (nch.getD ((lblDims env (joinPath lp lf0)).head?.getD 0)))
                  (i0+1) rest by simp [checkFrom, hl, hch, hsh]] at h
          rcases ih _ (i0+1) d1 d2 j pth h with ⟨hle, hlt, lf, hgd, h1, h2, h3, h4⟩
          refine ⟨by omega, by simp only [List.length_cons]; omega, lf, ?_, ?_, h2, h3, h4⟩
          · rw [show j - i0 = (j - (i0+1)) + 1 by omega]
            simpa using hgd
          · rw [show j - i0 = (j - (i0+1)) + 1 by omega]
            simpa using h1
        · rw [show checkFrom env ip lp nch i0 (fp :: rest)
              = .error (.shapeMismatch ((env.imgDims (joinPath ip fp.img)).tail)
                  ((lblDims env (joinPath lp lf0)).tail) i0 (joinPath ip lf0)) by
            simp [checkFrom, hl, hch, hsh]] at h
          have he := Except.error.inj h
          rw [TiffError.shapeMismatch.injEq] at he
          rcases he with ⟨e1, e2, e3, e4⟩
          subst e1
          subst e2
          subst e4
          refine ⟨by omega, ?_, lf0, ?_, ?_, ?_, ?_, rfl⟩
          · simp only [List.length_cons]
            omega
          · rw [show j - i0 = 0 by omega]
            simpa using hl
          · rw [show j - i0 = 0 by omega]
            simp
          · rfl
          · exact fun hdd => hsh hdd.symm
      · rw [show checkFrom env ip lp nch i0 (fp :: rest)
            = .error (.channelMismatch
                (nch.getD ((lblDims env (joinPath lp lf0)).head?.getD 0))
                ((lblDims env (joinPath lp lf0)).head?.getD 0)) by
          simp [checkFrom, hl, hch]] at h
        have he := Except.error.inj h
        exact TiffError.noConfusion he

theorem checkFrom_channel_error (env : Env) (ip lp : String) (l : List FilePair) :
    ∀ (nch : Option Nat) (i0 a b : Nat),
      checkFrom env ip lp nch i0 l = .error (.channelMismatch a b) →
      a ≠ b ∧ (∃ fp ∈ l, chOf env lp fp = some b) ∧
        (nch = some a ∨ ∃ fp ∈ l, chOf env lp fp = some a) := by
  induction l with
  | nil =>
    intro nch i0 a b h
    rw [show checkFrom env ip lp nch i0 [] = .ok () from rfl] at h
    exact Except.noConfusion h
  | cons fp rest ih =>
    intro nch i0 a b h
    cases hl : fp.lbl with
    | none =>
      rw [show checkFrom env ip lp nch i0 (fp :: rest)
          = checkFrom env ip lp nch (i0+1) rest by simp [checkFrom, hl]] at h
      rcases ih nch (i0+1) a b h with ⟨hab, ⟨fpb, hfpb, hb⟩, hrest⟩
      refine ⟨hab, ⟨fpb, List.mem_cons_of_mem _ hfpb, hb⟩, ?_⟩
      rcases hrest with h1 | ⟨fpa, hfpa, ha⟩
      · exact Or.inl h1
      · exact Or.inr ⟨fpa, List.mem_cons_of_mem _ hfpa, ha⟩
    | some lf0 =>
      by_cases hch : nch.getD ((lblDims env (joinPath lp lf0)).head?.getD 0)
          = (lblDims env (joinPath lp lf0)).head?.getD 0
      · by_cases hsh : (lblDims env (joinPath lp lf0)).tail
            = (env.imgDims (joinPath ip fp.img)).tail
        · rw [show checkFrom env ip lp nch i0 (fp :: rest)
              = checkFrom env ip lp
                  (some (nch.getD ((lblDims env (joinPath lp lf0)).head?.getD 0)))
                  (i0+1) rest by simp [checkFrom, hl, hch, hsh]] at h
          rcases ih _ (i0+1) a b h with ⟨hab, ⟨fpb, hfpb, hb⟩, hrest⟩
          refine ⟨hab, ⟨fpb, List.mem_cons_of_mem _ hfpb, hb⟩, ?_⟩
          rcases hrest with h1 | ⟨fpa, hfpa, ha⟩
          · have ha' : nch.getD ((lblDims env (joinPath lp lf0)).head?.getD 0) = a :=
              Option.some.inj h1
            cases hn : nch with
            | some nn =>
              left
              rw [hn] at ha'
              simp at ha'
              rw [ha']
            | none =>
              right
              refine ⟨fp, List.mem_cons_self _ _, ?_⟩
              rw [hn] at ha'
              simp at ha'
              simp [chOf, hl, ha']
          · exact Or.inr ⟨fpa, List.mem_cons_of_mem _ hfpa, ha⟩
        · rw [show checkFrom env ip lp nch i0 (fp :: rest)
              = .error (.shapeMismatch ((env.imgDims (joinPath ip fp.img)).tail)
                  ((lblDims env (joinPath lp lf0)).tail) i0 (joinPath ip lf0)) by
            simp [checkFrom, hl, hch, hsh]] at h
          exact TiffError.noConfusion (Except.error.inj h)
      · rw [show checkFrom env ip lp nch i0 (fp :: rest)
            = .error (.channelMismatch
                (nch.getD ((lblDims env (joinPath lp lf0)).head?.getD 0))
                ((lblDims env (joinPath lp lf0)).head?.getD 0)) by
          simp [checkFrom, hl, hch]] at h
        have he := Except.error.inj h
        rw [TiffError.channelMismatch.injEq] at he
        rcases he with ⟨e1, e2⟩
        have hab : a ≠ b := by omega
        refine ⟨hab, ⟨fp, List.mem_cons_self _ _, by simp [chOf, hl, e2]⟩, ?_⟩
        cases hn : nch with
        | some nn =>
          left
          rw [hn] at e1
          simp at e1
          exact congrArg some e1
        | none =>
          rw [hn] at hch
          simp at hch

/-- C3 (amended): construction succeeds exactly when every labeled pair has
label spatial (z, x, y) dimensions equal to its image's and all labeled
pairs carry the same label channel count — unlabeled pairs are skipped by
both checks, and on a violation an error is raised and no connector is
produced. A spatial mismatch raises an error carrying the offending image
index and the two mismatched spatial shapes; a channel-count mismatch
raises an error carrying the two conflicting channel counts (both occur on
labeled pairs of the dataset) but not the image index. -/
theorem construction_validation_spec (env : Env) (ip lp : String) (sp : Option String)
    (imgs : List String) (lbls : List (Option String)) :
    ((∃ c, mkTiffConnector env ip lp sp imgs lbls = .ok c) ↔
      (∃ n, ∀ fp ∈ (imgs.zip lbls).map (fun p => FilePair.mk p.1 p.2),
        entryOk env ip lp fp ∧ ∀ m, chOf env lp fp = some m → m = n)) ∧
    (∀ d1 d2 j pth,
      mkTiffConnector env ip lp sp imgs lbls = .error (.shapeMismatch d1 d2 j pth) →
      j < ((imgs.zip lbls).map (fun p => FilePair.mk p.1 p.2)).length ∧
      ∃ lf, (((imgs.zip lbls).map (fun p => FilePair.mk p.1 p.2)).getD j default).lbl
            = some lf ∧
        d1 = (env.imgDims (joinPath ip
          (((imgs.zip lbls).map (fun p => FilePair.mk p.1 p.2)).getD j default).img)).tail ∧
        d2 = (lblDims env (joinPath lp lf)).tail ∧ d1 ≠ d2) ∧
    (∀ a b, mkTiffConnector env ip lp sp imgs lbls = .error (.channelMismatch a b) →
      a ≠ b ∧
      (∃ fp ∈ (imgs.zip lbls).map (fun p => FilePair.mk p.1 p.2),
        chOf env lp fp = some a) ∧
      (∃ fp ∈ (imgs.zip lbls).map (fun p => FilePair.mk p.1 p.2),
        chOf env lp fp = some b)) := by
  rw [mkTiffConnector_eq]
  cases hck : check_label_matrix_dimensions env ip lp
      ((imgs.zip lbls).map (fun p => FilePair.mk p.1 p.2)) with
  | error e =>
    simp only [hck]
    refine ⟨?_, ?_, ?_⟩
    · constructor
      · intro ⟨c, hc⟩
        exact Except.noConfusion hc
      · intro ⟨n, hn⟩
        have := checkFrom_none_ok_of env ip lp n _ 0 hn
        rw [check_label_matrix_dimensions, this] at hck
        exact Except.noConfusion hck
    · intro d1 d2 j pth h
      have he : e = .shapeMismatch d1 d2 j pth := Except.error.inj h
      subst he
      rcases checkFrom_shape_error env ip lp _ none 0 d1 d2 j pth hck
        with ⟨_, hlt, lf, hgd, h1, h2, h3, _⟩
      simp only [Nat.sub_zero] at hlt hgd h1
      exact ⟨hlt, lf, hgd, h1, h2, h3⟩
    · intro a b h
      have he : e = .channelMismatch a b := Except.error.inj h
      subst he
      rcases checkFrom_channel_error env ip lp _ none 0 a b hck
        with ⟨hab, hbw, haw⟩
      rcases haw with h1 | h1
      · exact Option.noConfusion h1
      · exact ⟨hab, h1, hbw⟩
  | ok u =>
    simp only [hck]
    refine ⟨?_, ?_, ?_⟩
    · constructor
      · intro _
        cases u
        exact checkFrom_none_ok_exists env ip lp _ 0 hck
      · intro _
        exact ⟨_, rfl⟩
    · intro d1 d2 j pth h
      exact Except.noConfusion h
    · intro a b h
      exact Except.noConfusion h

/-- C3 counterexample: under `envC3` the two labeled images carry 1 and 2
label channels; construction aborts, but the raised error is exactly
`channelMismatch 1 2` — the two conflicting channel counts with no image
index and no spatial shapes in it (the Python message is
`'Label channels inconsistent: (Found 1 label channels but also 2)'`). -/
theorem channel_error_has_no_image_index :
    mkTiffConnector envC3 "im" "lb" none ["a.tif", "b.tif"]
      [some "l1.tif", some "l2.tif"] = .error (.channelMismatch 1 2) := by
  rfl

theorem zip_map_img_lbl (l : List FilePair) :
    ((l.map FilePair.img).zip (l.map FilePair.lbl)).map (fun p => FilePair.mk p.1 p.2)
      = l := by
  induction l with
  | nil => rfl
  | cons hd tl ih => simp [ih]

theorem collectLabels_filter (env : Env) (lp : String) (l : List FilePair) :
    ∀ acc, collectLabels env lp acc (l.filter (fun fp => fp.lbl.isSome))
      = collectLabels env lp acc l := by
  induction l with
  | nil => intro acc; rfl
  | cons hd tl ih =>
    intro acc
    cases h : hd.lbl with
    | none => simp [List.filter_cons, h, collectLabels, ih]
    | some lf =>
      by_cases hacc : acc.length = 0 <;>
        simp [List.filter_cons, h, collectLabels, hacc, ih]

/-- C7 (amended): `filter_labeled` returns a connector whose FilePair list
is exactly the parent's labeled pairs in the parent's order. Its
`labelvalue_mapping` is not copied but recomputed by the constructor; it
equals the parent's whenever the parent's own mapping is the one computed
from the parent's file list — as holds for every directly constructed
connector, because unlabeled images contribute nothing to
`original_label_values_for_all_images` — but not for connectors whose
mapping was overwritten, such as split children. -/
theorem filter_labeled_spec (env : Env) (c : TiffConn)
    (hck : check_label_matrix_dimensions env c.img_path c.label_path c.filenames
      = .ok ())
    (hmap : c.labelvalue_mapping = map_label_values
      (original_label_values_for_all_images env c.label_path c.filenames)) :
    ∃ c', filter_labeled env c = .ok c' ∧
      c'.filenames = c.filenames.filter (fun fp => fp.lbl.isSome) ∧
      c'.labelvalue_mapping = c.labelvalue_mapping := by
  have hrecomb := zip_map_img_lbl (c.filenames.filter (fun fp => fp.lbl.isSome))
  have hckf : check_label_matrix_dimensions env c.img_path c.label_path
      (c.filenames.filter (fun fp => fp.lbl.isSome)) = .ok () := by
    rcases checkFrom_none_ok_exists env c.img_path c.label_path c.filenames 0 hck
      with ⟨n, hn⟩
    exact checkFrom_none_ok_of env c.img_path c.label_path n _ 0
      (fun fp hfp => hn fp (List.mem_of_mem_filter hfp))
  refine ⟨⟨c.img_path, c.label_path, c.savepath,
    c.filenames.filter (fun fp => fp.lbl.isSome),
    map_label_values (original_label_values_for_all_images env c.label_path
      (c.filenames.filter (fun fp => fp.lbl.isSome)))⟩, ?_, rfl, ?_⟩
  · rw [filter_labeled, mkTiffConnector_eq, hrecomb, hckf]
  · show map_label_values (original_label_values_for_all_images env c.label_path
        (c.filenames.filter (fun fp => fp.lbl.isSome))) = c.labelvalue_mapping
    rw [hmap, original_label_values_for_all_images,
      original_label_values_for_all_images, collectLabels_filter]

/-- C7 witness: `connW7` holds one labeled and one unlabeled image; its
filtered child keeps exactly the labeled pair and the identical mapping. -/
theorem filter_labeled_spec_witness :
    (check_label_matrix_dimensions envW "im" "lb" connW7.filenames = .ok ()) ∧
    (connW7.labelvalue_mapping = map_label_values
      (original_label_values_for_all_images envW "lb" connW7.filenames)) ∧
    (∃ c', filter_labeled envW connW7 = .ok c' ∧
      c'.filenames = connW7.filenames.filter (fun fp => fp.lbl.isSome) ∧
      c'.labelvalue_mapping = connW7.labelvalue_mapping) :=
  ⟨rfl, rfl, filter_labeled_spec envW connW7 rfl rfl⟩

theorem map7 : map_label_values [({7} : Finset Nat)] = [[(7, 1)]] := by
  rw [map_label_values]
  rw [show (([({7} : Finset Nat)]).map (fun s => s.sort (· ≤ ·))) = [[7]] by
    rw [List.map_cons, List.map_nil, Finset.sort_singleton]]
  rfl

/-- C7 counterexample: `connC5a` is a reachable connector — the first half
of splitting `connC5`, so its `labelvalue_mapping` is the parent's
`[[(7, 1), (8, 2)]]` written over the recomputed one. `filter_labeled` on
it recomputes the mapping from its own single file, producing
`[[(7, 1)]]`, which differs from `connC5a`'s own mapping — refuting "the
LabelValueMapping is equal to the parent's" for arbitrary connectors. -/
theorem filter_labeled_split_child_mapping_differs :
    split (fun s => s) (fun _ _ _ => (([true, false] : List Bool), (0 : Nat)))
        envC5 connC5 (1/2 : Rat) 42 0 = .ok ((connC5a, connC5b), 0) ∧
    filter_labeled envC5 connC5a
      = .ok ⟨"im", "lb", none, [⟨"a.tif", some "al.tif"⟩], [[(7, 1)]]⟩ ∧
    ([[(7, 1)]] : List (List (Nat × Nat))) ≠ connC5a.labelvalue_mapping := by
  refine ⟨rfl, ?_, by decide⟩
  have hrecomb := zip_map_img_lbl (connC5a.filenames.filter (fun fp => fp.lbl.isSome))
  rw [filter_labeled, mkTiffConnector_eq, hrecomb]
  rw [show check_label_matrix_dimensions envC5 connC5a.img_path connC5a.label_path
      (connC5a.filenames.filter (fun fp => fp.lbl.isSome)) = .ok () from rfl]
  show Except.ok _ = Except.ok _
  rw [show original_label_values_for_all_images envC5 connC5a.label_path
      (connC5a.filenames.filter (fun fp => fp.lbl.isSome))
      = [({7} : Finset Nat)] from by decide]
  rw [map7]
  rfl

theorem compress_subset {α : Type} :
    ∀ (l : List α) (m : List Bool), ∀ a ∈ compress l m, a ∈ l := by
  intro l
  induction l with
  | nil => intro m a ha; simp [compress] at ha
  | cons x xs ih =>
    intro m a ha
    cases m with
    | nil => simp [compress] at ha
    | cons b bs =>
      rw [compress] at ha
      by_cases hb : b = true
      · rw [hb, if_pos rfl] at ha
        rcases List.mem_cons.mp ha with h1 | h1
        · exact h1 ▸ List.mem_cons_self _ _
        · exact List.mem_cons_of_mem _ (ih bs a h1)
      · rw [Bool.not_eq_true] at hb
        rw [hb] at ha
        simp only [Bool.false_eq_true, if_false] at ha
        exact List.mem_cons_of_mem _ (ih bs a ha)

theorem compress_map {α β : Type} (f : α → β) :
    ∀ (l : List α) (m : List Bool),
      (compress l m).map f = compress (l.map f) m := by
  intro l
  induction l with
  | nil => intro m; cases m <;> rfl
  | cons x xs ih =>
    intro m
    cases m with
    | nil => rfl
    | cons b bs =>
      cases b <;> simp [compress, ih]

theorem compress_append_perm {α : Type} :
    ∀ (l : List α) (m : List Bool), m.length = l.length →
      (compress l m ++ compress l (m.map not)).Perm l := by
  intro l
  induction l with
  | nil => intro m h; rw [List.length_nil, List.length_eq_zero] at h; rw [h]; rfl
  | cons x xs ih =>
    intro m h
    cases m with
    | nil => simp at h
    | cons b bs =>
      have hlen : bs.length = xs.length := by simpa using h
      cases b
      · rw [show compress (x :: xs) (false :: bs) = compress xs bs by
          simp [compress]]
        rw [show (false :: bs).map not = true :: bs.map not from rfl]
        rw [show compress (x :: xs) (true :: bs.map not) = x :: compress xs (bs.map not) by
          simp [compress]]
        exact (List.perm_middle).trans ((ih bs hlen).cons x)
      · rw [show compress (x :: xs) (true :: bs) = x :: compress xs bs by
          simp [compress]]
        rw [show (true :: bs).map not = false :: bs.map not from rfl]
        rw [show compress (x :: xs) (false :: bs.map not) = compress xs (bs.map not) by
          simp [compress]]
        rw [List.cons_append]
        exact (ih bs hlen).cons x

theorem compress_not_disjoint {α : Type} [DecidableEq α] :
    ∀ (l : List α) (m : List Bool), l.Nodup →
      ∀ a ∈ compress l m, a ∉ compress l (m.map not) := by
  intro l
  induction l with
  | nil => intro m _ a ha; simp [compress] at ha
  | cons x xs ih =>
    intro m hnd a ha hb
    rcases List.nodup_cons.mp hnd with ⟨hx, hxs⟩
    cases m with
    | nil => simp [compress] at ha
    | cons b bs =>
      cases b
      · rw [show compress (x :: xs) (false :: bs) = compress xs bs by
          simp [compress]] at ha
        rw [show (false :: bs).map not = true :: bs.map not from rfl,
          show compress (x :: xs) (true :: bs.map not)
            = x :: compress xs (bs.map not) by simp [compress]] at hb
        rcases List.mem_cons.mp hb with h1 | h1
        · exact hx (h1 ▸ compress_subset xs bs a ha)
        · exact ih bs hxs a ha h1
      · rw [show compress (x :: xs) (true :: bs) = x :: compress xs bs by
          simp [compress]] at ha
        rw [show (true :: bs).map not = false :: bs.map not from rfl,
          show compress (x :: xs) (false :: bs.map not)
            = compress xs (bs.map not) by simp [compress]] at hb
        rcases List.mem_cons.mp ha with h1 | h1
        · exact hx (h1 ▸ compress_subset xs (bs.map not) a hb)
        · exact ih bs hxs a h1 hb

/-- C2 (amended): `split` saves the ambient RNG state, draws its mask from
the freshly seeded state and restores the ambient state, so two calls with
the same fraction and seed return the same pair of connectors whatever the
ambient state was (and hand that state back untouched). The two children
partition the parent's filenames — the concatenation of their image lists
is a permutation of the parent's, and the two lists are disjoint whenever
the parent's image filenames are distinct (with a duplicated filename the
halves can both carry it); and both children's `labelvalue_mapping` is the
parent's, the constructor-recomputed mappings being overwritten. -/
theorem split_spec {R : Type} (seedState : Nat → R) (choice : R → Rat → Nat → List Bool × R)
    (env : Env) (c : TiffConn) (fraction : Rat) (random_seed : Nat) (amb1 amb2 : R)
    (hlen : (choice (seedState random_seed) fraction c.filenames.length).1.length
      = c.filenames.length)
    (hck : check_label_matrix_dimensions env c.img_path c.label_path c.filenames
      = .ok ()) :
    ∃ r1 r2,
      split seedState choice env c fraction random_seed amb1 = .ok ((r1, r2), amb1) ∧
      split seedState choice env c fraction random_seed amb2 = .ok ((r1, r2), amb2) ∧
      ((r1.filenames.map FilePair.img) ++ (r2.filenames.map FilePair.img)).Perm
        (c.filenames.map FilePair.img) ∧
      ((c.filenames.map FilePair.img).Nodup →
        ∀ a ∈ r1.filenames.map FilePair.img, a ∉ r2.filenames.map FilePair.img) ∧
      r1.labelvalue_mapping = c.labelvalue_mapping ∧
      r2.labelvalue_mapping = c.labelvalue_mapping := by
  rcases checkFrom_none_ok_exists env c.img_path c.label_path c.filenames 0 hck
    with ⟨n, hn⟩
  have hck1 : check_label_matrix_dimensions env c.img_path c.label_path
      (compress c.filenames
        (choice (seedState random_seed) fraction c.filenames.length).1) = .ok () :=
    checkFrom_none_ok_of env c.img_path c.label_path n _ 0
      (fun fp hfp => hn fp (compress_subset _ _ fp hfp))
  have hck2 : check_label_matrix_dimensions env c.img_path c.label_path
      (compress c.filenames
        ((choice (seedState random_seed) fraction c.filenames.length).1.map not))
      = .ok () :=
    checkFrom_none_ok_of env c.img_path c.label_path n _ 0
      (fun fp hfp => hn fp (compress_subset _ _ fp hfp))
  have hsplit : ∀ amb : R,
      split seedState choice env c fraction random_seed amb
        = .ok ((⟨c.img_path, c.label_path, c.savepath,
            compress c.filenames
              (choice (seedState random_seed) fraction c.filenames.length).1,
            c.labelvalue_mapping⟩,
          ⟨c.img_path, c.label_path, c.savepath,
            compress c.filenames
              ((choice (seedState random_seed) fraction c.filenames.length).1.map not),
            c.labelvalue_mapping⟩), amb) := by
    intro amb
    rw [split]
    rw [mkTiffConnector_eq, zip_map_img_lbl, hck1]
    rw [mkTiffConnector_eq, zip_map_img_lbl, hck2]
  refine ⟨_, _, hsplit amb1, hsplit amb2, ?_, ?_, rfl, rfl⟩
  · show ((compress c.filenames
        (choice (seedState random_seed) fraction c.filenames.length).1).map FilePair.img
      ++ (compress c.filenames
        ((choice (seedState random_seed) fraction c.filenames.length).1.map not)).map
          FilePair.img).Perm (c.filenames.map FilePair.img)
    rw [compress_map, compress_map]
    exact compress_append_perm (c.filenames.map FilePair.img) _
      (by rw [hlen, List.length_map])
  · intro hnd a ha
    rw [compress_map] at ha ⊢
    exact compress_not_disjoint (c.filenames.map FilePair.img) _ hnd a ha

/-- C2 witness: `connW7` split with an explicit mask-drawing function
(`R = Nat`), two different ambient states 0 and 1. -/
theorem split_spec_witness :
    ((fun _ _ _ => (([true, false] : List Bool), (0 : Nat))) ((fun s => s) 42)
        (1/2 : Rat) connW7.filenames.length).1.length = connW7.filenames.length ∧
    (check_label_matrix_dimensions envW "im" "lb" connW7.filenames = .ok ()) ∧
    (∃ r1 r2,
      split (fun s => s) (fun _ _ _ => (([true, false] : List Bool), (0 : Nat)))
          envW connW7 (1/2 : Rat) 42 0 = .ok ((r1, r2), 0) ∧
      split (fun s => s) (fun _ _ _ => (([true, false] : List Bool), (0 : Nat)))
          envW connW7 (1/2 : Rat) 42 1 = .ok ((r1, r2), 1) ∧
      ((r1.filenames.map FilePair.img) ++ (r2.filenames.map FilePair.img)).Perm
        (connW7.filenames.map FilePair.img) ∧
      ((connW7.filenames.map FilePair.img).Nodup →
        ∀ a ∈ r1.filenames.map FilePair.img, a ∉ r2.filenames.map FilePair.img) ∧
      r1.labelvalue_mapping = connW7.labelvalue_mapping ∧
      r2.labelvalue_mapping = connW7.labelvalue_mapping) :=
  ⟨rfl, rfl,
   split_spec (fun s => s) (fun _ _ _ => (([true, false] : List Bool), (0 : Nat)))
     envW connW7 (1/2 : Rat) 42 0 1 rfl rfl⟩

/-- C2 counterexample: the caller-supplied-list branch constructs a
connector carrying the same image filename twice; with a mask separating
the two copies, both split halves' filename lists contain `a.tif`, so the
two filename lists are not disjoint — refuting the claim's disjointness
for arbitrary connectors. -/
theorem split_duplicate_image_not_disjoint :
    mkTiffConnector envW "d" "lb" none ["a.tif", "a.tif"] [none, none]
      = .ok connDup ∧
    split (fun s => s) (fun _ _ _ => (([true, false] : List Bool), (0 : Nat)))
        envW connDup (1/2 : Rat) 42 0
      = .ok (((⟨"d", "lb", none, [⟨"a.tif", none⟩], []⟩ : TiffConn),
              (⟨"d", "lb", none, [⟨"a.tif", none⟩], []⟩ : TiffConn)), 0) ∧
    "a.tif" ∈ (([(⟨"a.tif", none⟩ : FilePair)]).map FilePair.img) := by
  refine ⟨rfl, rfl, by decide⟩

theorem getD_mem {β : Type} (l : List β) (i : Nat) (d : β) (h : i < l.length) :
    l.getD i d ∈ l := by
  rw [List.getD_eq_getElem?_getD, List.getElem?_eq_getElem h, Option.getD_some]
  exact List.getElem_mem h

theorem assocGetD_mem (d : List (Nat × Nat)) (k : Nat) :
    assocGetD d k = 0 ∨ assocGetD d k ∈ d.map Prod.snd := by
  rw [assocGetD]
  cases h : d.find? (fun p => p.1 == k) with
  | none => exact Or.inl rfl
  | some p =>
    right
    simpa using List.mem_map_of_mem Prod.snd (List.mem_of_find?_eq_some h)

theorem mem_values_getD_lt (sets : List (Finset Nat)) (ch v : Nat)
    (h : v ∈ ((map_label_values sets).getD ch []).map Prod.snd) : ch < sets.length := by
  by_contra hge
  push_neg at hge
  rw [List.getD_eq_default] at h
  · simp at h
  · rw [map_label_values_length]
    exact hge

theorem mem_values_pos (sets : List (Finset Nat)) (ch v : Nat)
    (h : v ∈ ((map_label_values sets).getD ch []).map Prod.snd) : 1 ≤ v := by
  have hlt := mem_values_getD_lt sets ch v h
  rcases List.mem_map.mp h with ⟨p, hp, hpv⟩
  have hmem : (map_label_values sets).getD ch [] ∈ map_label_values sets :=
    getD_mem _ ch [] (by rw [map_label_values_length]; exact hlt)
  exact hpv ▸ map_label_values_id_pos sets _ hmem p hp

theorem mapped_channel_unique (sets : List (Finset Nat)) (v : Nat) (ch ch' : Nat)
    (h1 : v ∈ ((map_label_values sets).getD ch []).map Prod.snd)
    (h2 : v ∈ ((map_label_values sets).getD ch' []).map Prod.snd) :
    ch = ch' := by
  have hch := mem_values_getD_lt sets ch v h1
  have hch' := mem_values_getD_lt sets ch' v h2
  by_contra hne
  rcases List.mem_map.mp h1 with ⟨p, hp, hpv⟩
  rcases List.mem_map.mp h2 with ⟨q, hq, hqv⟩
  exact map_label_values_disjoint sets ch ch' hch hch' hne p hp q hq
    (by rw [hpv, hqv])

theorem valid_mem_values (c : TiffConn) (v : Nat)
    (hv : is_labelvalue_valid c v = true) :
    ∃ ch, v ∈ ((c.labelvalue_mapping.getD ch []).map Prod.snd) := by
  have hv' : v ∈ (c.labelvalue_mapping.map (fun d => d.map Prod.snd)).flatten :=
    of_decide_eq_true hv
  rcases List.mem_flatten.mp hv' with ⟨D, hD, hvD⟩
  rcases List.mem_map.mp hD with ⟨d, hd, hDd⟩
  rcases List.mem_iff_getElem.mp hd with ⟨j, hj, hjd⟩
  refine ⟨j, ?_⟩
  rw [List.getD_eq_getElem?_getD, List.getElem?_eq_getElem hj, Option.getD_some,
    hjd, hDd]
  exact hvD

theorem load_label_matrix_some (env : Env) (c : TiffConn) (i : Nat) (lf : String)
    (hl : (c.filenames.getD i default).lbl = some lf) :
    load_label_matrix env c i false
      = some (assign_slice_by_slice c.labelvalue_mapping
          (env.lblMat (joinPath c.label_path lf))) := by
  have hl' : (c.filenames[i]?.getD default).lbl = some lf := by
    rw [← List.getD_eq_getElem?_getD]
    exact hl
  simp [load_label_matrix, hl']

theorem load_label_matrix_structure (env : Env) (c : TiffConn) (i : Nat) (m : LabelMat)
    (hm : load_label_matrix env c i false = some m) :
    ∃ lf, (c.filenames.getD i default).lbl = some lf ∧
      m = assign_slice_by_slice c.labelvalue_mapping
        (env.lblMat (joinPath c.label_path lf)) := by
  cases hl : (c.filenames.getD i default).lbl with
  | none =>
    have hl' : (c.filenames[i]?.getD default).lbl = none := by
      rw [← List.getD_eq_getElem?_getD]
      exact hl
    rw [show load_label_matrix env c i false = none by
      simp [load_label_matrix, hl']] at hm
    exact Option.noConfusion hm
  | some lf =>
    rw [load_label_matrix_some env c i lf hl] at hm
    exact ⟨lf, rfl, (Option.some.inj hm).symm⟩

/-- A valid mapped label value is assigned at any position in at most one
channel of the mapped label matrix: the per-channel id ranges produced by
`map_label_values` are disjoint, and the translation of channel `ch` can
only produce ids of channel `ch`'s dictionary (or 0). -/
theorem mapped_matrix_channel_unique (sets : List (Finset Nat)) (m0 : LabelMat)
    (v : Nat) (hvpos : 1 ≤ v) (z x y ch ch' : Nat)
    (h1 : (assign_slice_by_slice (map_label_values sets) m0).val ch z x y = v)
    (h2 : (assign_slice_by_slice (map_label_values sets) m0).val ch' z x y = v) :
    ch = ch' := by
  have h1' : assocGetD ((map_label_values sets).getD ch []) (m0.val ch z x y) = v := h1
  have h2' : assocGetD ((map_label_values sets).getD ch' []) (m0.val ch' z x y) = v := h2
  have hv1 : v ∈ (((map_label_values sets).getD ch []).map Prod.snd) := by
    rcases assocGetD_mem ((map_label_values sets).getD ch []) (m0.val ch z x y)
      with h | h
    · rw [h1'] at h
      omega
    · exact h1' ▸ h
  have hv2 : v ∈ (((map_label_values sets).getD ch' []).map Prod.snd) := by
    rcases assocGetD_mem ((map_label_values sets).getD ch' []) (m0.val ch' z x y)
      with h | h
    · rw [h2'] at h
      omega
    · exact h2' ▸ h
  exact mapped_channel_unique sets v ch ch' hv1 hv2

/-- C4 (amended): the boolean mask belongs to `label_tile`, which takes the
label value — `get_label_tile` takes none and raises on every call. For an
image with a label, the tile returned by `label_tile` is true at (z, x, y)
exactly when some channel of the mapped label matrix holds `label_value`
at the tile position `pos_zxy + (z, x, y)` (the `.any(axis=0)` channel
reduction); and for a valid mapped label value under a
`map_label_values`-produced mapping, at most one channel holds it at any
position, so the reduction loses nothing. -/
theorem label_tile_mask_spec (env : Env) (c : TiffConn) (image_nr : Nat)
    (pos_zxy size_zxy : Nat × Nat × Nat) (label_value : Nat)
    (sets : List (Finset Nat))
    (hmap : c.labelvalue_mapping = map_label_values sets)
    (hv : is_labelvalue_valid c label_value = true)
    (m : LabelMat) (hm : load_label_matrix env c image_nr false = some m) :
    ∃ t, label_tile env c image_nr pos_zxy size_zxy label_value = some t ∧
      (∀ z x y, t z x y = true ↔
        ∃ ch, ch < m.C ∧
          m.val ch (pos_zxy.1 + z) (pos_zxy.2.1 + x) (pos_zxy.2.2 + y) = label_value) ∧
      (∀ z x y ch ch', m.val ch z x y = label_value →
        m.val ch' z x y = label_value → ch = ch') := by
  have hvpos : 1 ≤ label_value := by
    rcases valid_mem_values c label_value hv with ⟨ch0, hch0⟩
    rw [hmap] at hch0
    exact mem_values_pos sets ch0 label_value hch0
  rcases load_label_matrix_structure env c image_nr m hm with ⟨lf, hlf, hstruct⟩
  refine ⟨tile3d (fun z x y =>
      decide (∃ ch, ch < m.C ∧ m.val ch z x y = label_value)) pos_zxy, ?_, ?_, ?_⟩
  · rw [label_tile, hm]
    rfl
  · intro z x y
    rw [tile3d]
    exact decide_eq_true_iff
  · intro z x y ch ch' h1 h2
    rw [hstruct, hmap] at h1 h2
    exact mapped_matrix_channel_unique sets _ label_value hvpos z x y ch ch' h1 h2

/-- C4 counterexample: `get_label_tile`, the function the claim is about,
returns no boolean mask on any call — through the spurious `self` argument
in `self.load_label_matrix(self, image_nr)` it raises a `TypeError`, here
at a concrete in-bounds request on a labeled image. -/
theorem get_label_tile_always_raises :
    get_label_tile envW connW7 0 (0, 0, 0) (1, 2, 2)
      = .error (.typeError
          "list indices must be integers or slices, not TiffConnector") := rfl

theorem connW7_sets :
    original_label_values_for_all_images envW "lb" connW7.filenames
      = [({7} : Finset Nat)] := by
  decide

theorem connW7_mapping : connW7.labelvalue_mapping = [[(7, 1)]] := by
  have h1 : connW7.labelvalue_mapping
      = map_label_values (original_label_values_for_all_images envW "lb"
          connW7.filenames) := rfl
  rw [h1, connW7_sets, map_label_values]
  rw [show (([({7} : Finset Nat)]).map (fun s => s.sort (· ≤ ·))) = [[7]] by
    rw [List.map_cons, List.map_nil, Finset.sort_singleton]]
  rfl

theorem connW7_valid1 : is_labelvalue_valid connW7 1 = true := by
  rw [is_labelvalue_valid, connW7_mapping]
  decide

/-- C4 witness: the mask for mapped value 1 on `connW7`'s labeled image. -/
theorem label_tile_mask_spec_witness :
    (connW7.labelvalue_mapping = map_label_values
      (original_label_values_for_all_images envW "lb" connW7.filenames)) ∧
    (is_labelvalue_valid connW7 1 = true) ∧
    (load_label_matrix envW connW7 0 false = some matW7mapped) ∧
    (∃ t, label_tile envW connW7 0 (0, 0, 0) (1, 2, 2) 1 = some t ∧
      (∀ z x y, t z x y = true ↔
        ∃ ch, ch < matW7mapped.C ∧
          matW7mapped.val ch ((0, 0, 0).1 + z) ((0, 0, 0).2.1 + x)
            ((0, 0, 0).2.2 + y) = 1) ∧
      (∀ z x y ch ch', matW7mapped.val ch z x y = 1 →
        matW7mapped.val ch' z x y = 1 → ch = ch')) :=
  ⟨rfl, connW7_valid1, rfl,
   label_tile_mask_spec envW connW7 0 (0, 0, 0) (1, 2, 2) 1
     (original_label_values_for_all_images envW "lb" connW7.filenames) rfl
     connW7_valid1 matW7mapped rfl⟩

theorem ite_exists_eq_sum (C : Nat) (P : Nat → Prop) [DecidablePred P]
    (huniq : ∀ a b, a < C → b < C → P a → P b → a = b) :
    (if ∃ ch, ch < C ∧ P ch then (1 : Nat) else 0)
      = ∑ ch ∈ Finset.range C, (if P ch then (1 : Nat) else 0) := by
  have hcard : (∑ ch ∈ Finset.range C, (if P ch then (1 : Nat) else 0))
      = ((Finset.range C).filter P).card := by
    rw [Finset.card_filter]
  by_cases h : ∃ ch, ch < C ∧ P ch
  · rcases h with ⟨c0, hc0, hp0⟩
    rw [if_pos ⟨c0, hc0, hp0⟩, hcard]
    have hsing : (Finset.range C).filter P = {c0} := by
      apply Finset.eq_singleton_iff_unique_mem.mpr
      refine ⟨Finset.mem_filter.mpr ⟨Finset.mem_range.mpr hc0, hp0⟩, ?_⟩
      intro b hb
      exact huniq b c0 (Finset.mem_range.mp (Finset.mem_filter.mp hb).1) hc0
        (Finset.mem_filter.mp hb).2 hp0
    rw [hsing, Finset.card_singleton]
  · rw [if_neg h, hcard]
    have hemp : (Finset.range C).filter P = ∅ := by
      apply Finset.filter_eq_empty_iff.mpr
      intro b hb hPb
      exact h ⟨b, Finset.mem_range.mp hb, hPb⟩
    rw [hemp, Finset.card_empty]

theorem sum4_swap (C Z X Y : Nat) (f : Nat → Nat → Nat → Nat → Nat) :
    (∑ z ∈ Finset.range Z, ∑ x ∈ Finset.range X, ∑ y ∈ Finset.range Y,
      ∑ ch ∈ Finset.range C, f ch z x y)
    = ∑ ch ∈ Finset.range C, ∑ z ∈ Finset.range Z, ∑ x ∈ Finset.range X,
      ∑ y ∈ Finset.range Y, f ch z x y := by
  calc (∑ z ∈ Finset.range Z, ∑ x ∈ Finset.range X, ∑ y ∈ Finset.range Y,
        ∑ ch ∈ Finset.range C, f ch z x y)
      = ∑ z ∈ Finset.range Z, ∑ x ∈ Finset.range X, ∑ ch ∈ Finset.range C,
          ∑ y ∈ Finset.range Y, f ch z x y := by
        apply Finset.sum_congr rfl
        intro z _
        apply Finset.sum_congr rfl
        intro x _
        exact Finset.sum_comm
    _ = ∑ z ∈ Finset.range Z, ∑ ch ∈ Finset.range C, ∑ x ∈ Finset.range X,
          ∑ y ∈ Finset.range Y, f ch z x y := by
        apply Finset.sum_congr rfl
        intro z _
        exact Finset.sum_comm
    _ = ∑ ch ∈ Finset.range C, ∑ z ∈ Finset.range Z, ∑ x ∈ Finset.range X,
          ∑ y ∈ Finset.range Y, f ch z x y := Finset.sum_comm

/-- C5 (amended): for a mapped label value that occurs in image `i` — a key
of `label_count_for_image(i)`, which holds exactly the positive values
present in the mapped matrix — the whole-image boolean label tile (origin
position, full spatial size) has exactly that count of true entries. (For a
valid value absent from the image the dict has no such key at all, so the
claim's equation has no right-hand side there.) -/
theorem label_tile_count_spec (env : Env) (c : TiffConn) (image_nr : Nat)
    (sets : List (Finset Nat))
    (hmap : c.labelvalue_mapping = map_label_values sets)
    (label_value : Nat) (m : LabelMat)
    (hm : load_label_matrix env c image_nr false = some m)
    (n : Nat)
    (hkey : (label_count_for_image env c image_nr).map (fun d => d label_value)
      = some (some n)) :
    ∃ t, label_tile env c image_nr (0, 0, 0) (m.Z, m.X, m.Y) label_value = some t ∧
      countTrue t m.Z m.X m.Y = n := by
  rw [label_count_for_image, hm] at hkey
  simp only [Option.map_some'] at hkey
  have hkey' := Option.some.inj hkey
  by_cases hcond : 0 < label_value ∧ 0 < count4d m label_value
  · rw [if_pos hcond] at hkey'
    have hn : n = count4d m label_value := (Option.some.inj hkey').symm
    rcases load_label_matrix_structure env c image_nr m hm with ⟨lf, hlf, hstruct⟩
    have huniq : ∀ z x y ch ch', m.val ch z x y = label_value →
        m.val ch' z x y = label_value → ch = ch' := by
      intro z x y ch ch' h1 h2
      rw [hstruct, hmap] at h1 h2
      exact mapped_matrix_channel_unique sets _ label_value (by omega) z x y ch ch' h1 h2
    refine ⟨tile3d (fun z x y =>
        decide (∃ ch, ch < m.C ∧ m.val ch z x y = label_value)) (0, 0, 0), ?_, ?_⟩
    · rw [label_tile, hm]
      rfl
    · rw [hn, countTrue, count4d]
      rw [← sum4_swap]
      apply Finset.sum_congr rfl
      intro z _
      apply Finset.sum_congr rfl
      intro x _
      apply Finset.sum_congr rfl
      intro y _
      rw [show tile3d (fun z x y =>
          decide (∃ ch, ch < m.C ∧ m.val ch z x y = label_value)) (0, 0, 0) z x y
        = decide (∃ ch, ch < m.C ∧ m.val ch z x y = label_value) by
          rw [tile3d]
          simp]
      rw [show (if (decide (∃ ch, ch < m.C ∧ m.val ch z x y = label_value)) = true
          then (1 : Nat) else 0)
        = if ∃ ch, ch < m.C ∧ m.val ch z x y = label_value then (1 : Nat) else 0 by
          by_cases hex : ∃ ch, ch < m.C ∧ m.val ch z x y = label_value <;>
            simp [hex]]
      exact ite_exists_eq_sum m.C (fun ch => m.val ch z x y = label_value)
        (fun a b _ _ ha hb => huniq z x y a b ha hb)
  · rw [if_neg hcond] at hkey'
    exact Option.noConfusion hkey'

theorem sort_seven_eight : ({7, 8} : Finset Nat).sort (· ≤ ·) = [7, 8] := by
  rw [show ({7, 8} : Finset Nat) = insert 7 {8} from rfl]
  rw [Finset.sort_insert]
  · rw [Finset.sort_singleton]
  · intro b hb
    rw [Finset.mem_singleton] at hb
    omega
  · decide

theorem map78 : map_label_values [({7, 8} : Finset Nat)] = [[(7, 1), (8, 2)]] := by
  rw [map_label_values]
  rw [show (([({7, 8} : Finset Nat)]).map (fun s => s.sort (· ≤ ·))) = [[7, 8]] by
    rw [List.map_cons, List.map_nil, sort_seven_eight]]
  rfl

theorem connC5_sets :
    original_label_values_for_all_images envC5 "lb" connC5.filenames
      = [({7, 8} : Finset Nat)] := by
  decide

/-- `connC5` is exactly the connector the constructor builds on `envC5`:
its written-out mapping `[[(7, 1), (8, 2)]]` is the computed one. -/
theorem connC5_constructed :
    mkTiffConnector envC5 "im" "lb" none ["a.tif", "b.tif"]
      [some "al.tif", some "bl.tif"] = .ok connC5 := by
  rw [mkTiffConnector_eq]
  rw [show check_label_matrix_dimensions envC5 "im" "lb"
      (((["a.tif", "b.tif"]).zip [some "al.tif", some "bl.tif"]).map
        (fun p => FilePair.mk p.1 p.2)) = .ok () from rfl]
  show Except.ok _ = Except.ok connC5
  rw [show original_label_values_for_all_images envC5 "lb"
      (((["a.tif", "b.tif"]).zip [some "al.tif", some "bl.tif"]).map
        (fun p => FilePair.mk p.1 p.2)) = [({7, 8} : Finset Nat)] from connC5_sets]
  rw [map78]
  rfl

/-- C5 counterexample: on `connC5`, 2 is a valid mapped label value (image
b carries raw 8 ↦ 2) but image a does not contain it: the whole-image tile
for 2 on image a counts zero true entries, while `label_count_for_image(0)`
has no key 2 at all (`label_count_for_image(0)[2]` is a `KeyError` in
Python, not 0) — so the claimed equation fails for a valid value absent
from the image. -/
theorem label_count_has_no_key_for_absent_value :
    is_labelvalue_valid connC5 2 = true ∧
    (label_count_for_image envC5 connC5 0).map (fun d => d 2) = some none ∧
    (label_tile envC5 connC5 0 (0, 0, 0) (1, 1, 1) 2).map
      (fun t => countTrue t 1 1 1) = some 0 := by
  refine ⟨by decide, by decide, by decide⟩

/-- C5 witness: mapped value 1 occurs once in `connC5`'s image a; the
whole-image tile counts exactly one true entry. -/
theorem label_tile_count_spec_witness :
    (connC5.labelvalue_mapping = map_label_values [({7, 8} : Finset Nat)]) ∧
    (load_label_matrix envC5 connC5 0 false = some matC5mapped) ∧
    ((label_count_for_image envC5 connC5 0).map (fun d => d 1) = some (some 1)) ∧
    (∃ t, label_tile envC5 connC5 0 (0, 0, 0)
        (matC5mapped.Z, matC5mapped.X, matC5mapped.Y) 1 = some t ∧
      countTrue t matC5mapped.Z matC5mapped.X matC5mapped.Y = 1) :=
  ⟨map78.symm, rfl, by decide,
   label_tile_count_spec envC5 connC5 0 [({7, 8} : Finset Nat)] map78.symm
     1 matC5mapped rfl 1 (by decide)⟩

end Yapic
